import Mathlib

set_option maxHeartbeats 1000000

/-!
Verification development for the strategy-execution engine of the
MoneyMitra repository (`backend/indicators.py`, `backend/backtest_worker.py`,
`backend/forward_runner.py`, `backend/models.py`).

Numeric values are modelled over `ℚ`; a pandas `NaN` entry of an indicator
series is modelled as `none` in `Option ℚ`.  A Python exception raised inside
a helper and caught by its caller is modelled with `Except Unit`.
Timestamps are modelled by the bar index they pass through unchanged.
-/

namespace MoneyMitra

/-- One OHLCV bar.  The field `opn` is the opening price (`open` is a reserved
word in Lean). -/
structure Bar where
  opn : ℚ
  high : ℚ
  low : ℚ
  close : ℚ
  volume : ℚ
  deriving DecidableEq

instance : Inhabited Bar := ⟨⟨0, 0, 0, 0, 0⟩⟩

/-! ## Condition evaluator (`indicators.py`, class `ConditionEvaluator`)

Condition expressions are strings in the source; they are modelled here at
token level.  A block identifier `b<n>` is the token `Tok.id n` (the source's
regex only recognises identifiers of this shape), a numeric literal is
`Tok.num q`, and the keywords `cross_over` / `cross_under` are the tokens
`Tok.crossOverTok` / `Tok.crossUnderTok`.  The Python substring tests
`'cross_over' in expr` and `block_id in expr` become token membership. -/

inductive Tok where
  | id (n : ℕ)
  | num (q : ℚ)
  | lt
  | le
  | gt
  | ge
  | eqOp
  | neOp
  | crossOverTok
  | crossUnderTok
  | lparen
  | rparen
  | comma
  deriving DecidableEq

/-- The per-strategy indicator map `block_id -> series`; insertion-ordered
association list, mirroring a Python dict with unique keys. -/
abbrev IndMap := List (ℕ × List (Option ℚ))

/-- First-binding association-list lookup (`indicators.get(block_id)`). -/
def lookupInd : IndMap → ℕ → Option (List (Option ℚ))
  | [], _ => none
  | (m, s) :: rest, n => if m = n then some s else lookupInd rest n

/-- IEEE-style strict `<` on possibly-NaN values: every comparison with a NaN
operand is false, as in Python/numpy. -/
def optLtB : Option ℚ → Option ℚ → Bool
  | some x, some y => decide (x < y)
  | _, _ => false

/-- IEEE-style strict `>` on possibly-NaN values. -/
def optGtB : Option ℚ → Option ℚ → Bool
  | some x, some y => decide (x > y)
  | _, _ => false

/-- The block identifiers occurring in an expression, in textual order
(`re.findall(r'b\d+', expr)`). -/
def idTokens (e : List Tok) : List ℕ :=
  e.filterMap fun t => match t with | .id n => some n | _ => none

/-- `ConditionEvaluator._evaluate_crossover`.  An out-of-range `iloc` access
raises `IndexError`, modelled as `.error ()`; the caller `evaluate` catches
it.  All other early returns are the source's own `return False`. -/
def evalCrossover (e : List Tok) (ind : IndMap) (idx : ℕ) (isOver : Bool) :
    Except Unit Bool :=
  match idTokens e with
  | [a, b] =>
    match lookupInd ind a, lookupInd ind b with
    | some s1, some s2 =>
      if idx < 1 then Except.ok false
      else if idx < s1.length ∧ idx < s2.length then
        let prevBelow := optLtB (s1.getD (idx - 1) none) (s2.getD (idx - 1) none)
        let currAbove := optGtB (s1.getD idx none) (s2.getD idx none)
        Except.ok (if isOver then prevBelow && currAbove else !prevBelow && !currAbove)
      else Except.error ()
    | _, _ => Except.ok false
  | _ => Except.ok false

/-- Replace every occurrence of the identifier token `b<n>` by the numeric
value `v` (`expr_eval.replace(block_id, str(value))`). -/
def replaceId (n : ℕ) (v : ℚ) (e : List Tok) : List Tok :=
  e.map fun t => if t = Tok.id n then Tok.num v else t

/-- The substitution loop of `ConditionEvaluator._evaluate_comparison`:
iterate over the indicator map in insertion order; whenever the block id
occurs in the (current) expression, look up its value at `idx`
(`series.iloc[idx] if idx < len(series) else np.nan`); a NaN value makes the
evaluator return `False` immediately (modelled as `none`), otherwise the id
is substituted and the loop continues.

The source's `block_id in expr_eval` / `expr_eval.replace(block_id, ...)`
work on the raw string, so an id whose decimal digits lead those of another
id (`b1` inside the text of `b12`) is detected and replaced inside the
longer token.  The token-level model here is atomic and therefore agrees
with the source exactly when no id of the map decimally leads (`decLead`) a
different id occurring in the expression; the C6 theorems carry that
hypothesis. -/
def substBlocks : IndMap → List Tok → ℕ → Option (List Tok)
  | [], e, _ => some e
  | (n, s) :: rest, e, idx =>
    if Tok.id n ∈ e then
      match s.getD idx none with
      | none => none
      | some v => substBlocks rest (replaceId n v e) idx
    else substBlocks rest e idx

/-- `decLead n m`: the decimal digit string of `n` is a prefix of that of
`m`, so the text `b<n>` occurs inside the text `b<m>` and the source's
substring replace of id `n` would corrupt an occurrence of id `m`. -/
def decLead (n m : ℕ) : Prop := ∃ t r, m = n * 10 ^ t + r ∧ r < 10 ^ t

/-- A Python value produced by `eval` on a substituted condition expression:
a number, a boolean, or a tuple. -/
inductive PyVal where
  | bool (b : Bool)
  | num (q : ℚ)
  | tuple (vs : List PyVal)

/-- Python truthiness of an `eval` result, as tested by
`if ConditionEvaluator.evaluate(...)` in both drivers: `False`/`0.0`/empty
tuple are falsy, everything else truthy. -/
def truthy : PyVal → Bool
  | .bool b => b
  | .num q => decide (q ≠ 0)
  | .tuple vs => !vs.isEmpty

mutual

/-- Python `==` on these values (never raises): booleans are numbers
(`True == 1`), tuples compare elementwise, number-vs-tuple is unequal. -/
def pyEqVal : PyVal → PyVal → Bool
  | PyVal.bool a, PyVal.bool b => a == b
  | PyVal.bool a, PyVal.num y => decide ((if a then (1 : ℚ) else 0) = y)
  | PyVal.num x, PyVal.bool b => decide (x = (if b then (1 : ℚ) else 0))
  | PyVal.num x, PyVal.num y => decide (x = y)
  | PyVal.tuple xs, PyVal.tuple ys => pyEqList xs ys
  | _, _ => false

def pyEqList : List PyVal → List PyVal → Bool
  | [], [] => true
  | x :: xs, y :: ys => pyEqVal x y && pyEqList xs ys
  | _, _ => false

end

mutual

/-- Python `<` on these values: numeric (with booleans as 0/1) when both
sides are numeric, lexicographic between tuples, and a `TypeError`
(`none`) between a tuple and a number/boolean. -/
def pyLtVal : PyVal → PyVal → Option Bool
  | PyVal.bool a, PyVal.bool b =>
    some (decide ((if a then (1 : ℚ) else 0) < (if b then (1 : ℚ) else 0)))
  | PyVal.bool a, PyVal.num y => some (decide ((if a then (1 : ℚ) else 0) < y))
  | PyVal.num x, PyVal.bool b => some (decide (x < (if b then (1 : ℚ) else 0)))
  | PyVal.num x, PyVal.num y => some (decide (x < y))
  | PyVal.tuple xs, PyVal.tuple ys => pyLtList xs ys
  | _, _ => none

def pyLtList : List PyVal → List PyVal → Option Bool
  | [], [] => some false
  | [], _ :: _ => some true
  | _ :: _, [] => some false
  | x :: xs, y :: ys =>
    if pyEqVal x y then pyLtList xs ys else pyLtVal x y

end

/-- One Python comparison operator on values; `a > b` is `b < a`, and the
non-strict forms are "less-or-equal" built from `<` and `==` as for Python
numbers and tuples.  `none` is a `TypeError`. -/
def applyCmpVal (a : PyVal) (op : Tok) (b : PyVal) : Option Bool :=
  match op with
  | .lt => pyLtVal a b
  | .gt => pyLtVal b a
  | .le => (pyLtVal a b).map (· || pyEqVal a b)
  | .ge => (pyLtVal b a).map (· || pyEqVal a b)
  | .eqOp => some (pyEqVal a b)
  | .neOp => some (!pyEqVal a b)
  | _ => none

/-- Whether a token is one of the six comparison operators. -/
def isCmpOp : Tok → Bool
  | .lt | .le | .gt | .ge | .eqOp | .neOp => true
  | _ => false

/-- The Python expressions writable over this token alphabet once the cross
keywords are ruled out: numeric literals, parenthesised expressions,
comma-built tuples, and (chained) comparisons. -/
inductive PyExpr where
  | lit (q : ℚ)
  | tuple (es : List PyExpr)
  | cmp (first : PyExpr) (chain : List (Tok × PyExpr))

mutual

/-- Evaluate a parsed expression the way Python does: tuples elementwise,
a comparison chain `a1 op1 a2 op2 a3 ...` as the conjunction of adjacent
comparisons with left-to-right short-circuit (a false link stops evaluation
before later operands could raise); `none` is a raised `TypeError`. -/
def evalPyExpr : PyExpr → Option PyVal
  | PyExpr.lit q => some (PyVal.num q)
  | PyExpr.tuple es =>
    match evalPyList es with
    | none => none
    | some vs => some (PyVal.tuple vs)
  | PyExpr.cmp a chain =>
    match evalPyExpr a with
    | none => none
    | some v =>
      match evalChain v chain with
      | none => none
      | some b => some (PyVal.bool b)

def evalPyList : List PyExpr → Option (List PyVal)
  | [] => some []
  | e :: es =>
    match evalPyExpr e with
    | none => none
    | some v =>
      match evalPyList es with
      | none => none
      | some vs => some (v :: vs)

def evalChain : PyVal → List (Tok × PyExpr) → Option Bool
  | _, [] => some true
  | v, (op, e) :: rest =>
    match evalPyExpr e with
    | none => none
    | some w =>
      match applyCmpVal v op w with
      | none => none
      | some b => if b then evalChain w rest else some false

end

mutual

/-- Recursive-descent parser for the grammar the token alphabet can write
(`exprlist := comp (',' comp)* [',']`, `comp := atom (cmpop atom)*`,
`atom := number | '(' ')' | '(' exprlist ')'`), fuelled by the token count;
`none` is a `SyntaxError`. -/
def parseAtom : ℕ → List Tok → Option (PyExpr × List Tok)
  | 0, _ => none
  | _ + 1, Tok.num q :: rest => some (PyExpr.lit q, rest)
  | _ + 1, Tok.lparen :: Tok.rparen :: rest => some (PyExpr.tuple [], rest)
  | f + 1, Tok.lparen :: rest =>
    match parseExprList f rest with
    | some (e, Tok.rparen :: rest2) => some (e, rest2)
    | _ => none
  | _ + 1, _ => none

def parseComp : ℕ → List Tok → Option (PyExpr × List Tok)
  | 0, _ => none
  | f + 1, toks =>
    match parseAtom f toks with
    | none => none
    | some (a, rest) =>
      match parseCmpChain f rest with
      | none => none
      | some ([], rest2) => some (a, rest2)
      | some (chain, rest2) => some (PyExpr.cmp a chain, rest2)

def parseCmpChain : ℕ → List Tok → Option (List (Tok × PyExpr) × List Tok)
  | 0, _ => none
  | f + 1, toks =>
    match toks with
    | op :: rest =>
      if isCmpOp op then
        match parseAtom f rest with
        | none => none
        | some (a, rest2) =>
          match parseCmpChain f rest2 with
          | none => none
          | some (chain, rest3) => some ((op, a) :: chain, rest3)
      else some ([], toks)
    | [] => some ([], [])

def parseExprList : ℕ → List Tok → Option (PyExpr × List Tok)
  | 0, _ => none
  | f + 1, toks =>
    match parseComp f toks with
    | none => none
    | some (e, rest) =>
      match rest with
      | Tok.comma :: rest2 =>
        match parseMoreComps f rest2 with
        | none => none
        | some (es, rest3) => some (PyExpr.tuple (e :: es), rest3)
      | _ => some (e, rest)

def parseMoreComps : ℕ → List Tok → Option (List PyExpr × List Tok)
  | 0, _ => none
  | f + 1, toks =>
    match toks with
    | [] => some ([], [])
    | Tok.rparen :: _ => some ([], toks)
    | _ =>
      match parseComp f toks with
      | none => none
      | some (e, rest) =>
        match rest with
        | Tok.comma :: rest2 =>
          match parseMoreComps f rest2 with
          | none => none
          | some (es, rest3) => some (e :: es, rest3)
        | _ => some ([e], rest)

end

/-- The `eval(expr_eval)` call on a fully substituted expression: parse the
whole token list and evaluate it; a leftover surviving id token is an
unbound name, and that, a syntax error or a comparison type error all raise
(`none`), which the source's inner `try/except` turns into `False`.  A
successful evaluation returns its (possibly non-boolean) value.  The fuel
`3·n + 3` dominates the parser's recursion depth, since at least one of any
three nested parser frames consumes a token. -/
def pyEval (e : List Tok) : Option PyVal :=
  match parseExprList (3 * e.length + 3) e with
  | some (ast, []) => evalPyExpr ast
  | _ => none

/-- `ConditionEvaluator._evaluate_comparison`.  The source returns the raw
`eval` value; since its only callers test it with `if ...`, the model
returns that value's truthiness. -/
def evalComparison (e : List Tok) (ind : IndMap) (idx : ℕ) : Bool :=
  match substBlocks ind e idx with
  | none => false
  | some e2 =>
    match pyEval e2 with
    | none => false
    | some v => truthy v

/-- `ConditionEvaluator.evaluate`: dispatch on the `cross_over` /
`cross_under` keywords, otherwise treat the expression as a comparison; the
surrounding `try/except` converts any escaped exception into `False`. -/
def evaluate (e : List Tok) (ind : IndMap) (idx : ℕ) : Bool :=
  if e.contains Tok.crossOverTok then
    match evalCrossover e ind idx true with
    | .ok b => b
    | .error _ => false
  else if e.contains Tok.crossUnderTok then
    match evalCrossover e ind idx false with
    | .ok b => b
    | .error _ => false
  else
    evalComparison e ind idx

/-! ## Exponential moving average (`IndicatorEngine.ema`)

`df['close'].ewm(span=period, adjust=False).mean()`: with
`α = 2/(span+1)` pandas seeds the series with the first close and applies
`y[t] = (1-α)·y[t-1] + α·x[t]`. -/

/-- Smoothing factor `2/(period+1)`. -/
def emaAlpha (period : ℕ) : ℚ := 2 / (period + 1)

/-- One `ewm(adjust=False)` update. -/
def emaStep (α prev x : ℚ) : ℚ := (1 - α) * prev + α * x

/-- Tail of the EMA series given the previous smoothed value. -/
def emaFrom (α : ℚ) (prev : ℚ) : List ℚ → List ℚ
  | [] => []
  | x :: rest => emaStep α prev x :: emaFrom α (emaStep α prev x) rest

/-- `IndicatorEngine.ema` on the list of closes. -/
def ema (period : ℕ) (closes : List ℚ) : List ℚ :=
  match closes with
  | [] => []
  | c :: rest => c :: emaFrom (emaAlpha period) c rest

/-! ## Backtest engine (`backtest_worker.py`, class `BacktestEngine`) -/

/-- Why a position was closed (the `reason` strings of `_close_position`). -/
inductive ExitReason where
  | stopLossHit
  | takeProfitHit
  | logic
  | exitAll
  | endOfBacktest
  deriving DecidableEq

/-- `self.position` dict: `{qty, avgPrice, stopLoss, takeProfit, entryTime}`;
`none` levels are the Python `None` produced for a falsy percentage. -/
structure Position where
  qty : ℚ
  avgPrice : ℚ
  stopLoss : Option ℚ
  takeProfit : Option ℚ
  entryTime : ℕ
  deriving DecidableEq

/-- The trade dict recorded by `BacktestEngine._close_position` (the engine
creates trades only there, already carrying their exit data). -/
structure Trade where
  qty : ℚ
  entryPrice : ℚ
  exitPrice : ℚ
  stopLoss : Option ℚ
  takeProfit : Option ℚ
  pnl : ℚ
  pnlPct : ℚ
  exitReason : ExitReason
  entryTime : ℕ
  exitTime : ℕ
  deriving DecidableEq

/-- The engine's mutable trading state (`cash`, `position`, `trades`,
`equity_curve`). -/
structure EngineState where
  cash : ℚ
  position : Option Position
  trades : List Trade
  equityCurve : List (ℕ × ℚ)
  deriving DecidableEq

/-- Parameters of an action block; `none` means the key is absent and the
source default applies. -/
structure ActionParams where
  sizePct : Option ℚ
  stopLossPct : Option ℚ
  takeProfitPct : Option ℚ
  deriving DecidableEq

/-- The recognised `action` strings; anything else is ignored by
`_execute_actions`. -/
inductive ActionKind where
  | buy
  | sell
  | exitAll
  | unknown
  deriving DecidableEq

/-- One action block of a strategy. -/
structure ActionBlock where
  action : ActionKind
  params : ActionParams
  deriving DecidableEq

/-- The parsed strategy blocks the simulation loop consumes; a condition
block's expression is `none` when `block.get('expr')` is falsy (the loop
skips it). -/
structure Strategy where
  conditionBlocks : List (Option (List Tok))
  actionBlocks : List ActionBlock
  deriving DecidableEq

/-- `params.get('sizePct', 0.25)`. -/
def effSizePct (p : ActionParams) : ℚ := p.sizePct.getD (1/4)

/-- `params.get('stopLossPct', 0.05)`. -/
def effStopLossPct (p : ActionParams) : ℚ := p.stopLossPct.getD (1/20)

/-- `params.get('takeProfitPct', 0.10)`. -/
def effTakeProfitPct (p : ActionParams) : ℚ := p.takeProfitPct.getD (1/10)

/-- `BacktestEngine._open_buy_position`.  A falsy (zero) percentage stores
`None` for the corresponding level. -/
def openBuyPosition (s : EngineState) (price : ℚ) (t : ℕ) (params : ActionParams) :
    EngineState :=
  let sizePct := effSizePct params
  let stopLossPct := effStopLossPct params
  let takeProfitPct := effTakeProfitPct params
  let positionValue := s.cash * sizePct
  let qty := positionValue / price
  if qty ≤ 0 then s
  else
    { s with
      position := some
        { qty := qty
          avgPrice := price
          stopLoss := if stopLossPct = 0 then none else some (price * (1 - stopLossPct))
          takeProfit := if takeProfitPct = 0 then none else some (price * (1 + takeProfitPct))
          entryTime := t }
      cash := s.cash - positionValue }

/-- `BacktestEngine._close_position`. -/
def closePosition (s : EngineState) (price : ℚ) (t : ℕ) (reason : ExitReason) :
    EngineState :=
  match s.position with
  | none => s
  | some p =>
    let positionValue := p.qty * price
    let pnl := positionValue - p.qty * p.avgPrice
    let pnlPct := pnl / (p.qty * p.avgPrice) * 100
    { s with
      cash := s.cash + positionValue
      trades := s.trades ++
        [{ qty := p.qty
           entryPrice := p.avgPrice
           exitPrice := price
           stopLoss := p.stopLoss
           takeProfit := p.takeProfit
           pnl := pnl
           pnlPct := pnlPct
           exitReason := reason
           entryTime := p.entryTime
           exitTime := t }]
      position := none }

/-- `BacktestEngine._check_stop_loss`.  Python truthiness: a `None` or `0.0`
stop level reads as unset and the check returns `False`. -/
def checkStopLoss (s : EngineState) (bar : Bar) : Bool :=
  match s.position with
  | none => false
  | some p =>
    match p.stopLoss with
    | none => false
    | some sl => if sl = 0 then false else decide (bar.low ≤ sl)

/-- `BacktestEngine._check_take_profit`, with the same truthiness reading. -/
def checkTakeProfit (s : EngineState) (bar : Bar) : Bool :=
  match s.position with
  | none => false
  | some p =>
    match p.takeProfit with
    | none => false
    | some tp => if tp = 0 then false else decide (bar.high ≥ tp)

/-- One iteration of the loop in `BacktestEngine._execute_actions`; the
position is re-read for every block. -/
def executeAction (s : EngineState) (bar : Bar) (t : ℕ) (ab : ActionBlock) :
    EngineState :=
  match ab.action with
  | .buy => if s.position.isNone then openBuyPosition s bar.close t ab.params else s
  | .sell => if s.position.isSome then closePosition s bar.close t ExitReason.logic else s
  | .exitAll => if s.position.isSome then closePosition s bar.close t ExitReason.exitAll else s
  | .unknown => s

/-- `BacktestEngine._execute_actions`: run every action block in order. -/
def executeActions (s : EngineState) (bar : Bar) (t : ℕ) (blocks : List ActionBlock) :
    EngineState :=
  blocks.foldl (fun st ab => executeAction st bar t ab) s

/-- Whether some condition block fires at this bar: blocks with a falsy
expression are skipped, and the driver executes actions for the first block
whose expression evaluates true, then breaks.  Since every firing condition
triggers the same single `_execute_actions` call, the loop's effect is fully
determined by this predicate. -/
def anyCondFires (blocks : List (Option (List Tok))) (ind : IndMap) (idx : ℕ) : Bool :=
  blocks.any fun ob =>
    match ob with
    | none => false
    | some e => evaluate e ind idx

/-- The condition/action phase of one bar of `_simulate_bars`. -/
def condPhase (strat : Strategy) (ind : IndMap) (s : EngineState) (idx : ℕ) (bar : Bar) :
    EngineState :=
  if anyCondFires strat.conditionBlocks ind idx then executeActions s bar idx strat.actionBlocks
  else s

/-- The equity-curve append at the top of each `_simulate_bars` iteration:
current cash plus the open position marked at this bar's close. -/
def pushEquity (s : EngineState) (idx : ℕ) (bar : Bar) : EngineState :=
  let pv := s.cash + (match s.position with | some p => p.qty * bar.close | none => 0)
  { s with equityCurve := s.equityCurve ++ [(idx, pv)] }

/-- One full iteration of `BacktestEngine._simulate_bars`: equity sample,
then stop-loss check, then take-profit check (each closing at the stored
level and skipping the rest of the bar via `continue`), then condition
evaluation and action execution. -/
def simStep (strat : Strategy) (ind : IndMap) (s : EngineState) (idx : ℕ) (bar : Bar) :
    EngineState :=
  let s1 := pushEquity s idx bar
  match s1.position with
  | some p =>
    if checkStopLoss s1 bar then
      closePosition s1 (p.stopLoss.getD 0) idx ExitReason.stopLossHit
    else if checkTakeProfit s1 bar then
      closePosition s1 (p.takeProfit.getD 0) idx ExitReason.takeProfitHit
    else condPhase strat ind s1 idx bar
  | none => condPhase strat ind s1 idx bar

/-- `_simulate_bars` from bar index `i` onwards. -/
def simBarsFrom (strat : Strategy) (ind : IndMap) : ℕ → EngineState → List Bar → EngineState
  | _, s, [] => s
  | i, s, b :: rest => simBarsFrom strat ind (i + 1) (simStep strat ind s i b) rest

/-- `BacktestEngine._simulate_bars` over the whole bar sequence. -/
def simulateBars (strat : Strategy) (ind : IndMap) (s : EngineState) (bars : List Bar) :
    EngineState :=
  simBarsFrom strat ind 0 s bars

/-- The engine's initial trading state set up in `__init__`. -/
def initState (initialCapital : ℚ) : EngineState :=
  { cash := initialCapital, position := none, trades := [], equityCurve := [] }

/-- Steps 4-5 of `BacktestEngine.run`: simulate every bar, then force-close a
still-open position at the final bar's close with reason `end-of-backtest`. -/
def runBacktest (strat : Strategy) (ind : IndMap) (bars : List Bar)
    (initialCapital : ℚ) : EngineState :=
  let s := simulateBars strat ind (initState initialCapital) bars
  match s.position with
  | some _ =>
    closePosition s (bars.getLastD default).close (bars.length - 1) ExitReason.endOfBacktest
  | none => s

/-! ## Forward-runner ledger (`forward_runner.py` with `models.py`)

Only the position/trade bookkeeping of `ForwardRunner._open_position` and
`ForwardRunner._close_position` is modelled; symbols are opaque keys,
modelled as `ℕ`.  `portfolio.holdings` is a Python dict, modelled as an
insertion-ordered association list with unique keys; `portfolio.trades` is
the list of trade dicts produced by `Trade.to_dict()`. -/

/-- The `status` field of a forward trade dict (`'open'` / `'closed'`). -/
inductive TradeStatus where
  | openTr
  | closedTr
  deriving DecidableEq

/-- A forward-runner trade dict, as appended by `_open_position`
(`Trade.to_dict()`) and mutated by `_close_position`. -/
structure FwdTrade where
  symbol : ℕ
  qty : ℚ
  price : ℚ
  stopLoss : Option ℚ
  takeProfit : Option ℚ
  status : TradeStatus
  exitPrice : Option ℚ
  exitReason : Option ExitReason
  pnl : ℚ
  pnlPct : ℚ
  deriving DecidableEq

/-- A `portfolio.holdings[symbol]` entry. -/
structure Holding where
  qty : ℚ
  avgPrice : ℚ
  currentPrice : ℚ
  pnl : ℚ
  pnlPct : ℚ
  stopLoss : Option ℚ
  takeProfit : Option ℚ
  deriving DecidableEq

/-- The slice of a `Portfolio` the forward runner mutates. -/
structure FwdPortfolio where
  cash : ℚ
  holdings : List (ℕ × Holding)
  trades : List FwdTrade
  equityCurve : List ℚ
  deriving DecidableEq

/-- Dict lookup `portfolio.holdings.get(symbol)` (first binding). -/
def lookupHolding : List (ℕ × Holding) → ℕ → Option Holding
  | [], _ => none
  | (m, h) :: rest, n => if m = n then some h else lookupHolding rest n

/-- Dict assignment `portfolio.holdings[symbol] = h`: replace the first
binding, else append. -/
def setHolding : List (ℕ × Holding) → ℕ → Holding → List (ℕ × Holding)
  | [], n, h => [(n, h)]
  | (m, h0) :: rest, n, h =>
    if m = n then (n, h) :: rest else (m, h0) :: setHolding rest n h

/-- `del portfolio.holdings[symbol]`: drop the first binding. -/
def removeHolding : List (ℕ × Holding) → ℕ → List (ℕ × Holding)
  | [], _ => []
  | (m, h0) :: rest, n => if m = n then rest else (m, h0) :: removeHolding rest n

/-- Mark-to-market value of the remaining holdings
(`sum(h['qty'] * h['currentPrice'] for h in holdings.values())`). -/
def holdingsValue (hs : List (ℕ × Holding)) : ℚ :=
  (hs.map fun sh => sh.2.qty * sh.2.currentPrice).sum

/-- `ForwardRunner._open_position`: size the position from current cash,
bail out when the quantity is non-positive or the value exceeds cash,
otherwise deduct cash, write the holding and append a trade dict in the
`'open'` state. -/
def fwdOpenPosition (P : FwdPortfolio) (symbol : ℕ) (price : ℚ)
    (params : ActionParams) : FwdPortfolio :=
  let sizePct := effSizePct params
  let stopLossPct := effStopLossPct params
  let takeProfitPct := effTakeProfitPct params
  let positionValue := P.cash * sizePct
  let qty := positionValue / price
  if qty ≤ 0 ∨ positionValue > P.cash then P
  else
    let sl := if stopLossPct = 0 then none else some (price * (1 - stopLossPct))
    let tp := if takeProfitPct = 0 then none else some (price * (1 + takeProfitPct))
    { P with
      cash := P.cash - positionValue
      holdings := setHolding P.holdings symbol
        { qty := qty, avgPrice := price, currentPrice := price, pnl := 0, pnlPct := 0,
          stopLoss := sl, takeProfit := tp }
      trades := P.trades ++
        [{ symbol := symbol, qty := qty, price := price, stopLoss := sl, takeProfit := tp,
           status := TradeStatus.openTr, exitPrice := none, exitReason := none,
           pnl := 0, pnlPct := 0 }] }

/-- The trade-update loop of `ForwardRunner._close_position`: mark the first
trade dict for this symbol still in the `'open'` state as `'closed'`, filling
its exit fields; later trades are untouched (`break`). -/
def markFirstOpenClosed (trades : List FwdTrade) (symbol : ℕ) (price : ℚ)
    (reason : ExitReason) (pnl pnlPct : ℚ) : List FwdTrade :=
  match trades with
  | [] => []
  | t :: rest =>
    if t.symbol = symbol ∧ t.status = TradeStatus.openTr then
      { t with status := TradeStatus.closedTr, exitPrice := some price,
               exitReason := some reason, pnl := pnl, pnlPct := pnlPct } :: rest
    else t :: markFirstOpenClosed rest symbol price reason pnl pnlPct

/-- `ForwardRunner._close_position`: no-op without a holding; otherwise
credit the exit value to cash, delete the holding, close the first open
trade for the symbol and append an equity sample. -/
def fwdClosePosition (P : FwdPortfolio) (symbol : ℕ) (price : ℚ)
    (reason : ExitReason) : FwdPortfolio :=
  match lookupHolding P.holdings symbol with
  | none => P
  | some h =>
    let qty := h.qty
    let entryPrice := h.avgPrice
    let positionValue := qty * price
    let pnl := positionValue - qty * entryPrice
    let cash2 := P.cash + positionValue
    let holdings2 := removeHolding P.holdings symbol
    { P with
      cash := cash2
      holdings := holdings2
      trades := markFirstOpenClosed P.trades symbol price reason pnl
        (pnl / (qty * entryPrice) * 100)
      equityCurve := P.equityCurve ++ [cash2 + holdingsValue holdings2] }

/-! ## Helper lemmas -/

theorem pushEquity_position (s : EngineState) (idx : ℕ) (bar : Bar) :
    (pushEquity s idx bar).position = s.position := rfl

theorem pushEquity_cash (s : EngineState) (idx : ℕ) (bar : Bar) :
    (pushEquity s idx bar).cash = s.cash := rfl

theorem pushEquity_trades (s : EngineState) (idx : ℕ) (bar : Bar) :
    (pushEquity s idx bar).trades = s.trades := rfl

theorem emaFrom_length (α prev : ℚ) (l : List ℚ) :
    (emaFrom α prev l).length = l.length := by
  induction l generalizing prev with
  | nil => rfl
  | cons x xs ih => simp [emaFrom, ih]

theorem emaFrom_getD (α : ℚ) (l : List ℚ) :
    ∀ (prev : ℚ) (i : ℕ), i < l.length →
      (emaFrom α prev l).getD i 0 =
        emaStep α ((prev :: emaFrom α prev l).getD i 0) (l.getD i 0) := by
  induction l with
  | nil => intro prev i h; simp at h
  | cons x xs ih =>
    intro prev i h
    cases i with
    | zero => simp [emaFrom]
    | succ j =>
      simp only [emaFrom, List.getD_cons_succ]
      exact ih (emaStep α prev x) j (by simpa using h)

/-! ## Claim theorems -/

/-- Claim C7: for every non-empty close sequence and period ≥ 1 the EMA
series has no warm-up gap (same length, every entry defined), its first
entry is the first close, and each later entry satisfies
`ema[t] = ema[t-1] + α·(close[t] − ema[t-1])` with `α = 2/(period+1)`. -/
theorem c7_ema_recurrence (period : ℕ) (closes : List ℚ) (hp : 1 ≤ period)
    (hne : closes ≠ []) :
    emaAlpha period = 2 / ((period : ℚ) + 1) ∧
    (ema period closes).length = closes.length ∧
    (ema period closes).getD 0 0 = closes.getD 0 0 ∧
    ∀ t, 0 < t → t < closes.length →
      (ema period closes).getD t 0 =
        (ema period closes).getD (t - 1) 0 +
          emaAlpha period * (closes.getD t 0 - (ema period closes).getD (t - 1) 0) := by
  match closes, hne with
  | c :: rest, _ =>
    refine ⟨rfl, ?_, ?_, ?_⟩
    · simp [ema, emaFrom_length]
    · simp [ema]
    · intro t ht hlt
      match t, ht with
      | Nat.succ i, _ =>
        have hi : i < rest.length := by simpa using hlt
        have h := emaFrom_getD (emaAlpha period) rest c i hi
        simp only [ema, List.getD_cons_succ, Nat.succ_sub_one]
        rw [h]
        simp only [emaStep]
        ring

/-- Witness for C7 at period 2, closes `[1, 2]`. -/
theorem c7_ema_recurrence_witness :
    (ema 2 [(1 : ℚ), 2]).length = ([(1 : ℚ), 2]).length ∧
    (ema 2 [(1 : ℚ), 2]).getD 1 0 =
      (ema 2 [(1 : ℚ), 2]).getD 0 0 +
        emaAlpha 2 * (([(1 : ℚ), 2]).getD 1 0 - (ema 2 [(1 : ℚ), 2]).getD 0 0) :=
  ⟨(c7_ema_recurrence 2 [1, 2] (by norm_num) (by simp)).2.1,
   (c7_ema_recurrence 2 [1, 2] (by norm_num) (by simp)).2.2.2 1 (by norm_num) (by norm_num)⟩

/-- Unfolding equation for `closePosition` on a state with an open position. -/
theorem closePosition_some (s : EngineState) (p : Position) (hp : s.position = some p)
    (price : ℚ) (t : ℕ) (reason : ExitReason) :
    closePosition s price t reason =
      { s with cash := s.cash + p.qty * price
               trades := s.trades ++
                 [{ qty := p.qty
                    entryPrice := p.avgPrice
                    exitPrice := price
                    stopLoss := p.stopLoss
                    takeProfit := p.takeProfit
                    pnl := p.qty * price - p.qty * p.avgPrice
                    pnlPct := (p.qty * price - p.qty * p.avgPrice) / (p.qty * p.avgPrice) * 100
                    exitReason := reason
                    entryTime := p.entryTime
                    exitTime := t }]
               position := none } := by
  unfold closePosition
  rw [hp]

/-- Claim C5: closing an open position at exit price `p` credits exactly
`qty·p` to cash, leaves the engine flat, and records one trade whose `pnl`
is exactly `qty·(p − entryPrice)`, whose `pnlPct` is `pnl/(qty·entryPrice)·100`
and whose exit reason is the given one. -/
theorem c5_close_accounting (s : EngineState) (p : Position) (price : ℚ) (t : ℕ)
    (reason : ExitReason) (hp : s.position = some p) :
    (closePosition s price t reason).cash = s.cash + p.qty * price ∧
    (closePosition s price t reason).position = none ∧
    ∃ tr : Trade,
      (closePosition s price t reason).trades = s.trades ++ [tr] ∧
      tr.pnl = p.qty * (price - p.avgPrice) ∧
      tr.pnlPct = tr.pnl / (p.qty * p.avgPrice) * 100 ∧
      tr.exitReason = reason ∧
      tr.exitPrice = price ∧
      tr.qty = p.qty ∧
      tr.entryPrice = p.avgPrice := by
  rw [closePosition_some s p hp]
  refine ⟨rfl, rfl, _, rfl, ?_, rfl, rfl, rfl, rfl, rfl⟩
  change p.qty * price - p.qty * p.avgPrice = p.qty * (price - p.avgPrice)
  ring

/-- Witness for C5: a long position of 2 units entered at 10 closed at 15. -/
def c5State : EngineState := ⟨100, some ⟨2, 10, none, none, 0⟩, [], []⟩

/-- Witness for C5. -/
theorem c5_close_accounting_witness :
    (closePosition c5State 15 3 ExitReason.logic).cash = c5State.cash + 2 * 15 ∧
    (closePosition c5State 15 3 ExitReason.logic).position = none :=
  ⟨(c5_close_accounting c5State ⟨2, 10, none, none, 0⟩ 15 3 ExitReason.logic rfl).1,
   (c5_close_accounting c5State ⟨2, 10, none, none, 0⟩ 15 3 ExitReason.logic rfl).2.1⟩

/-- Claim C2: the ledger is a two-state machine.  A BUY while flat opens a
position of quantity `(cash·sizePct)/price` at the bar close and deducts the
position value from cash, and is a no-op when that quantity is ≤ 0; a BUY
while long is a no-op; SELL and EXIT_ALL while flat are no-ops; SELL and
EXIT_ALL while long close the position with reasons `logic` and `exit-all`. -/
theorem c2_action_state_machine (s : EngineState) (bar : Bar) (t : ℕ)
    (params : ActionParams) :
    (s.position = none →
      (0 < s.cash * effSizePct params / bar.close →
        (executeAction s bar t ⟨ActionKind.buy, params⟩).position =
          some { qty := s.cash * effSizePct params / bar.close
                 avgPrice := bar.close
                 stopLoss := if effStopLossPct params = 0 then none
                   else some (bar.close * (1 - effStopLossPct params))
                 takeProfit := if effTakeProfitPct params = 0 then none
                   else some (bar.close * (1 + effTakeProfitPct params))
                 entryTime := t } ∧
        (executeAction s bar t ⟨ActionKind.buy, params⟩).cash =
          s.cash - s.cash * effSizePct params) ∧
      (s.cash * effSizePct params / bar.close ≤ 0 →
        executeAction s bar t ⟨ActionKind.buy, params⟩ = s)) ∧
    (s.position.isSome →
      executeAction s bar t ⟨ActionKind.buy, params⟩ = s) ∧
    (s.position = none →
      executeAction s bar t ⟨ActionKind.sell, params⟩ = s ∧
      executeAction s bar t ⟨ActionKind.exitAll, params⟩ = s) ∧
    (s.position.isSome →
      executeAction s bar t ⟨ActionKind.sell, params⟩ =
        closePosition s bar.close t ExitReason.logic ∧
      executeAction s bar t ⟨ActionKind.exitAll, params⟩ =
        closePosition s bar.close t ExitReason.exitAll) := by
  refine ⟨fun hflat => ⟨fun hqty => ?_, fun hqty => ?_⟩, fun hlong => ?_,
    fun hflat => ⟨?_, ?_⟩, fun hlong => ⟨?_, ?_⟩⟩
  · simp [executeAction, hflat, openBuyPosition, if_neg (not_le.mpr hqty)]
  · simp [executeAction, hflat, openBuyPosition, if_pos hqty]
  · obtain ⟨p, hp⟩ := Option.isSome_iff_exists.mp hlong
    simp [executeAction, hp]
  · simp [executeAction, hflat]
  · simp [executeAction, hflat]
  · simp [executeAction, hlong]
  · simp [executeAction, hlong]

/-- Concrete flat state for the C2 witness. -/
def c2Flat : EngineState := initState 1000

/-- Concrete long state for the C2 witness. -/
def c2Long : EngineState := ⟨500, some ⟨50, 10, none, none, 0⟩, [], []⟩

/-- Concrete BUY parameters for the C2 witness. -/
def c2Params : ActionParams := ⟨some (1/2), some 0, some 0⟩

/-- Concrete bar for the C2 witness. -/
def c2Bar : Bar := ⟨10, 11, 9, 10, 1000⟩

/-- Witness for C2: the BUY-while-flat and BUY-while-long cases at concrete
inputs. -/
theorem c2_action_state_machine_witness :
    (executeAction c2Flat c2Bar 1 ⟨ActionKind.buy, c2Params⟩).cash =
      c2Flat.cash - c2Flat.cash * effSizePct c2Params ∧
    executeAction c2Long c2Bar 1 ⟨ActionKind.buy, c2Params⟩ = c2Long :=
  ⟨(((c2_action_state_machine c2Flat c2Bar 1 c2Params).1 rfl).1
      (by norm_num [c2Flat, initState, c2Bar, c2Params, effSizePct])).2,
   (c2_action_state_machine c2Long c2Bar 1 c2Params).2.1 (by simp [c2Long])⟩

/-- Claim C1: on a bar with an open position the exit triggers run before
any condition block: the stop-loss check comes first, and a firing stop
closes the position at the stored stop level with reason `stop-loss`; the
take-profit check comes second and, only when the stop did not fire, closes
at the stored take-profit level with reason `take-profit`.  In either case
the resulting state is a pure close of the equity-updated state — it does
not depend on the condition blocks, action blocks or indicator map, i.e.
condition/action evaluation is skipped — and when both levels lie inside the
bar's low-high range the recorded exit is the stop-loss one.  (The source
reads a zero level as unset, hence the non-zero hypotheses.) -/
theorem c1_exit_priority (strat : Strategy) (ind : IndMap) (s : EngineState)
    (p : Position) (idx : ℕ) (bar : Bar) (hp : s.position = some p) :
    (∀ sl, p.stopLoss = some sl → sl ≠ 0 → bar.low ≤ sl →
      simStep strat ind s idx bar =
        closePosition (pushEquity s idx bar) sl idx ExitReason.stopLossHit) ∧
    (checkStopLoss s bar = false →
      ∀ tp, p.takeProfit = some tp → tp ≠ 0 → tp ≤ bar.high →
        simStep strat ind s idx bar =
          closePosition (pushEquity s idx bar) tp idx ExitReason.takeProfitHit) ∧
    (∀ sl tp, p.stopLoss = some sl → sl ≠ 0 → bar.low ≤ sl →
      p.takeProfit = some tp → tp ≠ 0 → tp ≤ bar.high →
      ∃ tr : Trade,
        (simStep strat ind s idx bar).trades = s.trades ++ [tr] ∧
        tr.exitReason = ExitReason.stopLossHit ∧ tr.exitPrice = sl) := by
  have hp1 : (pushEquity s idx bar).position = some p := by
    rw [pushEquity_position, hp]
  have hc1 : checkStopLoss (pushEquity s idx bar) bar = checkStopLoss s bar := rfl
  refine ⟨?_, ?_, ?_⟩
  · intro sl hsl hne hlow
    have hcsl : checkStopLoss (pushEquity s idx bar) bar = true := by
      simp [checkStopLoss, pushEquity_position, hp, hsl, hne, hlow]
    simp [simStep, hp1, hcsl, hsl]
  · intro hcf tp htp hne hhigh
    have hctp : checkTakeProfit (pushEquity s idx bar) bar = true := by
      simp [checkTakeProfit, pushEquity_position, hp, htp, hne, ge_iff_le, hhigh]
    simp [simStep, hp1, hc1, hcf, hctp, htp]
  · intro sl tp hsl hslne hlow htp htpne hhigh
    have hcsl : checkStopLoss (pushEquity s idx bar) bar = true := by
      simp [checkStopLoss, pushEquity_position, hp, hsl, hslne, hlow]
    have heq : simStep strat ind s idx bar =
        closePosition (pushEquity s idx bar) sl idx ExitReason.stopLossHit := by
      simp [simStep, hp1, hcsl, hsl]
    rw [heq, closePosition_some (pushEquity s idx bar) p hp1 sl idx ExitReason.stopLossHit]
    exact ⟨_, by rw [pushEquity_trades], rfl, rfl⟩

/-- Concrete long state for the C1 witness: entry 100, stop 95, take 110. -/
def c1State : EngineState := ⟨0, some ⟨10, 100, some 95, some 110, 0⟩, [], []⟩

/-- Concrete bar for the C1 witness: both exit levels inside its range. -/
def c1Bar : Bar := ⟨100, 111, 94, 100, 0⟩

/-- Empty strategy for the C1 witness. -/
def c1Strat : Strategy := ⟨[], []⟩

/-- Witness for C1: on a bar containing both the stop and the take-profit
level, the single recorded exit is the stop-loss one. -/
theorem c1_exit_priority_witness :
    (simStep c1Strat [] c1State 0 c1Bar).trades.map Trade.exitReason =
      [ExitReason.stopLossHit] := by
  obtain ⟨tr, htr, hres, hpx⟩ :=
    (c1_exit_priority c1Strat [] c1State ⟨10, 100, some 95, some 110, 0⟩ 0 c1Bar rfl).2.2
      95 110 rfl (by norm_num) (by norm_num [c1Bar]) rfl (by norm_num) (by norm_num [c1Bar])
  rw [htr]
  simp [c1State, hres]

/-- Substituting an id distinct from `n` keeps the token `b<n>` in place. -/
theorem mem_replaceId (m n : ℕ) (v : ℚ) (e : List Tok) (hne : m ≠ n)
    (h : Tok.id n ∈ e) : Tok.id n ∈ replaceId m v e := by
  simp only [replaceId, List.mem_map]
  refine ⟨Tok.id n, h, ?_⟩
  simp [Tok.id.injEq, Ne.symm hne]

/-- The substitution loop returns the early `False` (modelled `none`) as soon
as a referenced block's series value at `idx` is NaN. -/
theorem substBlocks_nan (idx : ℕ) (ind : IndMap) :
    ∀ (e : List Tok) (n : ℕ) (s : List (Option ℚ)),
      Tok.id n ∈ e → lookupInd ind n = some s → s.getD idx none = none →
      substBlocks ind e idx = none := by
  induction ind with
  | nil => intro e n s _ hl _; simp [lookupInd] at hl
  | cons ms rest ih =>
    intro e n s hmem hl hnan
    obtain ⟨m, sm⟩ := ms
    by_cases hmn : m = n
    · subst hmn
      have hl2 : sm = s := by simpa [lookupInd] using hl
      subst hl2
      simp only [substBlocks, if_pos hmem, hnan]
    · simp only [lookupInd, if_neg hmn] at hl
      simp only [substBlocks]
      by_cases hm : Tok.id m ∈ e
      · rw [if_pos hm]
        cases hsm : sm.getD idx none with
        | none => rfl
        | some v => exact ih (replaceId m v e) n s (mem_replaceId m n v e hmn hmem) hl hnan
      · rw [if_neg hm]
        exact ih e n s hmem hl hnan

/-- An expression without id tokens passes through the substitution loop
unchanged. -/
theorem substBlocks_no_ids (e : List Tok) (idx : ℕ) (h : ∀ n, Tok.id n ∉ e) :
    ∀ ind : IndMap, substBlocks ind e idx = some e := by
  intro ind
  induction ind with
  | nil => rfl
  | cons ms rest ih =>
    obtain ⟨m, sm⟩ := ms
    simp only [substBlocks, if_neg (h m)]
    exact ih

/-- A one-link comparison chain evaluates to its comparison's boolean. -/
theorem evalChain_cons_ok (v w : PyVal) (op : Tok) (e2 : PyExpr) (b : Bool)
    (he : evalPyExpr e2 = some w) (hab : applyCmpVal v op w = some b) :
    evalChain v [(op, e2)] = some b := by
  simp only [evalChain, he, hab]
  cases b <;> rfl

/-- Counterexample to C6 as stated: the substituted expression `5` is not
parseable as a boolean comparison, yet Python's `eval` returns the number
`5.0`, the evaluator returns it unchanged — not a boolean and not `False` —
and the drivers' `if ConditionEvaluator.evaluate(...)` treats the condition
as met, so evaluation of `5` yields true, not false. -/
theorem c6_counterexample :
    pyEval [Tok.num 5] = some (PyVal.num 5) ∧ evaluate [Tok.num 5] [] 0 = true :=
  ⟨rfl, rfl⟩

/-- Claim C6 (amended): condition evaluation never propagates an exception —
`evaluate` is total, and a raised `SyntaxError`, `NameError` (a surviving
unbound id) or comparison `TypeError` degrades to `false` — and a comparison
referencing a series whose value is NaN at the index returns `false`.  But a
successfully evaluated expression is NOT forced to a boolean: the source
returns the raw `eval` value and its callers test truthiness, so an
expression that is parseable yet not a boolean comparison fires the
condition whenever its value is truthy — a bare numeric literal `q` fires
iff `q ≠ 0` — while a genuine `literal < literal` comparison yields its
boolean.  The NaN clause and the token-level substitution are faithful to
the source's substring replace exactly when no id of the map decimally
leads (`decLead`) a different id occurring in the expression, hence that
hypothesis. -/
theorem c6_eval_amended (e : List Tok) (ind : IndMap) (idx : ℕ)
    (hco : Tok.crossOverTok ∉ e) (hcu : Tok.crossUnderTok ∉ e)
    (hlead : ∀ n ∈ ind.map Prod.fst, ∀ m, Tok.id m ∈ e → decLead n m → n = m) :
    (∀ n s, Tok.id n ∈ e → lookupInd ind n = some s → s.getD idx none = none →
      evaluate e ind idx = false) ∧
    (∀ e2, substBlocks ind e idx = some e2 → pyEval e2 = none →
      evaluate e ind idx = false) ∧
    (∀ e2 v, substBlocks ind e idx = some e2 → pyEval e2 = some v →
      evaluate e ind idx = truthy v) ∧
    (∀ q : ℚ, evaluate [Tok.num q] ind idx = decide (q ≠ 0)) ∧
    (∀ a b : ℚ,
      evaluate [Tok.num a, Tok.lt, Tok.num b] ind idx = decide (a < b)) := by
  refine ⟨?_, ?_, ?_, ?_, ?_⟩
  · intro n s hmem hl hnan
    simp [evaluate, hco, hcu, evalComparison, substBlocks_nan idx ind e n s hmem hl hnan]
  · intro e2 hsub hparse
    simp [evaluate, hco, hcu, evalComparison, hsub, hparse]
  · intro e2 v hsub hval
    simp [evaluate, hco, hcu, evalComparison, hsub, hval]
  · intro q
    have hnoid : ∀ n, Tok.id n ∉ [Tok.num q] :=
      fun n hmem => Tok.noConfusion (List.mem_singleton.mp hmem)
    have hnc1 : Tok.crossOverTok ∉ [Tok.num q] :=
      fun hmem => Tok.noConfusion (List.mem_singleton.mp hmem)
    have hnc2 : Tok.crossUnderTok ∉ [Tok.num q] :=
      fun hmem => Tok.noConfusion (List.mem_singleton.mp hmem)
    have hsub := substBlocks_no_ids [Tok.num q] idx hnoid ind
    have hpy : pyEval [Tok.num q] = some (PyVal.num q) := rfl
    simp [evaluate, hnc1, hnc2, evalComparison, hsub, hpy, truthy]
  · intro a b
    have hnoid : ∀ n, Tok.id n ∉ [Tok.num a, Tok.lt, Tok.num b] := by
      intro n hmem
      rcases List.mem_cons.mp hmem with h | hmem
      · exact Tok.noConfusion h
      rcases List.mem_cons.mp hmem with h | hmem
      · exact Tok.noConfusion h
      rcases List.mem_cons.mp hmem with h | hmem
      · exact Tok.noConfusion h
      · exact absurd hmem (List.not_mem_nil _)
    have hnc1 : Tok.crossOverTok ∉ [Tok.num a, Tok.lt, Tok.num b] := by
      intro hmem
      rcases List.mem_cons.mp hmem with h | hmem
      · exact Tok.noConfusion h
      rcases List.mem_cons.mp hmem with h | hmem
      · exact Tok.noConfusion h
      rcases List.mem_cons.mp hmem with h | hmem
      · exact Tok.noConfusion h
      · exact absurd hmem (List.not_mem_nil _)
    have hnc2 : Tok.crossUnderTok ∉ [Tok.num a, Tok.lt, Tok.num b] := by
      intro hmem
      rcases List.mem_cons.mp hmem with h | hmem
      · exact Tok.noConfusion h
      rcases List.mem_cons.mp hmem with h | hmem
      · exact Tok.noConfusion h
      rcases List.mem_cons.mp hmem with h | hmem
      · exact Tok.noConfusion h
      · exact absurd hmem (List.not_mem_nil _)
    have hsub := substBlocks_no_ids [Tok.num a, Tok.lt, Tok.num b] idx hnoid ind
    have hch : evalChain (PyVal.num a) [(Tok.lt, PyExpr.lit b)] =
        some (decide (a < b)) :=
      evalChain_cons_ok (PyVal.num a) (PyVal.num b) Tok.lt (PyExpr.lit b)
        (decide (a < b)) rfl rfl
    have hpy : pyEval [Tok.num a, Tok.lt, Tok.num b] =
        some (PyVal.bool (decide (a < b))) := by
      show (match evalChain (PyVal.num a) [(Tok.lt, PyExpr.lit b)] with
        | none => none
        | some bb => some (PyVal.bool bb)) = some (PyVal.bool (decide (a < b)))
      rw [hch]
    simp [evaluate, hnc1, hnc2, evalComparison, hsub, hpy, truthy]

/-- Witness for the amended C6: a NaN-referencing comparison fails closed,
and a literal comparison yields its boolean, at concrete inputs. -/
theorem c6_eval_amended_witness :
    evaluate [Tok.id 1, Tok.gt, Tok.num 70] [(1, [none])] 0 = false ∧
    evaluate [Tok.num 5, Tok.lt, Tok.num 7] ([] : IndMap) 0 = decide ((5 : ℚ) < 7) :=
  ⟨(c6_eval_amended [Tok.id 1, Tok.gt, Tok.num 70] [(1, [none])] 0
      (by decide) (by decide)
      (by
        intro n hn m hm _
        have hn1 : n = 1 := by simpa using hn
        have hm1 : m = 1 := by
          rcases List.mem_cons.mp hm with h | hm
          · exact (Tok.id.inj h.symm).symm
          rcases List.mem_cons.mp hm with h | hm
          · exact absurd h (by intro hc; exact Tok.noConfusion hc)
          rcases List.mem_cons.mp hm with h | hm
          · exact absurd h (by intro hc; exact Tok.noConfusion hc)
          · exact absurd hm (List.not_mem_nil _)
        rw [hn1, hm1])).1
      1 [none] (by decide) rfl rfl,
   (c6_eval_amended [Tok.num 5, Tok.lt, Tok.num 7] [] 0 (by decide) (by decide)
      (by intro n hn; exact absurd hn (List.not_mem_nil n))).2.2.2.2 5 7⟩

/-- Unfolding equation for `evalCrossover` once the id tokens are known. -/
theorem evalCrossover_hids (e : List Tok) (ind : IndMap) (idx : ℕ) (isOver : Bool)
    (a b : ℕ) (hids : idTokens e = [a, b]) :
    evalCrossover e ind idx isOver =
      (match lookupInd ind a, lookupInd ind b with
      | some s1, some s2 =>
        if idx < 1 then Except.ok false
        else if idx < s1.length ∧ idx < s2.length then
          Except.ok
            (if isOver then
              optLtB (s1.getD (idx - 1) none) (s2.getD (idx - 1) none) &&
                optGtB (s1.getD idx none) (s2.getD idx none)
            else
              !optLtB (s1.getD (idx - 1) none) (s2.getD (idx - 1) none) &&
                !optGtB (s1.getD idx none) (s2.getD idx none))
        else Except.error ()
      | _, _ => Except.ok false) := by
  unfold evalCrossover
  rw [hids]

theorem optLtB_none_left (y : Option ℚ) : optLtB none y = false := by cases y <;> rfl

theorem optLtB_none_right (x : Option ℚ) : optLtB x none = false := by cases x <;> rfl

theorem optGtB_none_left (y : Option ℚ) : optGtB none y = false := by cases y <;> rfl

theorem optGtB_none_right (x : Option ℚ) : optGtB x none = false := by cases x <;> rfl

/-- With the `cross_over` keyword present, `evaluate` runs the crossover
evaluator in `is_over` mode and catches its exceptions. -/
theorem evaluate_crossOver_mem (e : List Tok) (ind : IndMap) (idx : ℕ)
    (hin : Tok.crossOverTok ∈ e) :
    evaluate e ind idx =
      (match evalCrossover e ind idx true with
      | Except.ok b => b
      | Except.error _ => false) := by
  simp [evaluate, hin]

/-- Without `cross_over` but with `cross_under`, `evaluate` runs the
crossover evaluator in `is_under` mode and catches its exceptions. -/
theorem evaluate_crossUnder_mem (e : List Tok) (ind : IndMap) (idx : ℕ)
    (hout : Tok.crossOverTok ∉ e) (hin : Tok.crossUnderTok ∈ e) :
    evaluate e ind idx =
      (match evalCrossover e ind idx false with
      | Except.ok b => b
      | Except.error _ => false) := by
  simp [evaluate, hout, hin]

/-- The crossover evaluator returns `False` at index 0. -/
theorem evalCrossover_idxZero (e : List Tok) (ind : IndMap) (isOver : Bool)
    (a b : ℕ) (hids : idTokens e = [a, b]) :
    evalCrossover e ind 0 isOver = Except.ok false := by
  rw [evalCrossover_hids e ind 0 isOver a b hids]
  rcases lookupInd ind a with _ | s1 <;> rcases lookupInd ind b with _ | s2 <;> simp

/-- The crossover evaluator returns `False` when either series is missing. -/
theorem evalCrossover_missing (e : List Tok) (ind : IndMap) (idx : ℕ) (isOver : Bool)
    (a b : ℕ) (hids : idTokens e = [a, b])
    (h : lookupInd ind a = none ∨ lookupInd ind b = none) :
    evalCrossover e ind idx isOver = Except.ok false := by
  rw [evalCrossover_hids e ind idx isOver a b hids]
  rcases h with h | h <;> rw [h] <;>
    rcases lookupInd ind a with _ | s1 <;>
    rcases lookupInd ind b with _ | s2 <;> rfl

/-- The crossover evaluator raises (`IndexError`) when the index is in the
eligible range but out of range of either series. -/
theorem evalCrossover_outOfRange (e : List Tok) (ind : IndMap) (idx : ℕ) (isOver : Bool)
    (a b : ℕ) (hids : idTokens e = [a, b]) (s1 s2 : List (Option ℚ))
    (h1 : lookupInd ind a = some s1) (h2 : lookupInd ind b = some s2)
    (hidx : 1 ≤ idx) (hrange : ¬(idx < s1.length ∧ idx < s2.length)) :
    evalCrossover e ind idx isOver = Except.error () := by
  rw [evalCrossover_hids e ind idx isOver a b hids, h1, h2]
  simp [Nat.not_lt.mpr hidx, hrange]

/-- In-range unfolding of the crossover evaluator. -/
theorem evalCrossover_inRange (e : List Tok) (ind : IndMap) (idx : ℕ) (isOver : Bool)
    (a b : ℕ) (hids : idTokens e = [a, b]) (s1 s2 : List (Option ℚ))
    (h1 : lookupInd ind a = some s1) (h2 : lookupInd ind b = some s2)
    (hidx : 1 ≤ idx) (hr1 : idx < s1.length) (hr2 : idx < s2.length) :
    evalCrossover e ind idx isOver =
      Except.ok
        (if isOver then
          optLtB (s1.getD (idx - 1) none) (s2.getD (idx - 1) none) &&
            optGtB (s1.getD idx none) (s2.getD idx none)
        else
          !optLtB (s1.getD (idx - 1) none) (s2.getD (idx - 1) none) &&
            !optGtB (s1.getD idx none) (s2.getD idx none)) := by
  rw [evalCrossover_hids e ind idx isOver a b hids, h1, h2]
  simp [Nat.not_lt.mpr hidx, hr1, hr2]

/-- Claim C3 (amended): for a crossover expression whose id tokens are
`[a, b]`, writing `A` and `B` for the two series looked up in the map and
using NaN-rejecting strict comparisons (any comparison with a NaN operand is
false): `cross_over` evaluates true at `i` iff `A[i-1] < B[i-1]` and
`A[i] > B[i]` — in particular it fails closed when a referenced value is
NaN — while `cross_under` evaluates to `(¬(A[i-1] < B[i-1])) ∧
(¬(A[i] > B[i]))`, which is TRUE, not false, when a referenced value is NaN
at `i-1` or `i`.  Both forms return false when `i < 1`, when either id is
missing from the series map, and when `i` is out of range of either series
(the `IndexError` is caught and degrades to false). -/
theorem c3_crossover_amended (e : List Tok) (ind : IndMap) (idx : ℕ)
    (a b : ℕ) (hids : idTokens e = [a, b]) :
    (∀ s1 s2, lookupInd ind a = some s1 → lookupInd ind b = some s2 →
      1 ≤ idx → idx < s1.length → idx < s2.length →
      (Tok.crossOverTok ∈ e →
        evaluate e ind idx =
          (optLtB (s1.getD (idx - 1) none) (s2.getD (idx - 1) none) &&
           optGtB (s1.getD idx none) (s2.getD idx none))) ∧
      (Tok.crossOverTok ∉ e → Tok.crossUnderTok ∈ e →
        evaluate e ind idx =
          (!optLtB (s1.getD (idx - 1) none) (s2.getD (idx - 1) none) &&
           !optGtB (s1.getD idx none) (s2.getD idx none)))) ∧
    ((Tok.crossOverTok ∈ e ∨ Tok.crossUnderTok ∈ e) → idx = 0 →
      evaluate e ind idx = false) ∧
    ((Tok.crossOverTok ∈ e ∨ Tok.crossUnderTok ∈ e) →
      (lookupInd ind a = none ∨ lookupInd ind b = none) →
      evaluate e ind idx = false) ∧
    (∀ s1 s2, lookupInd ind a = some s1 → lookupInd ind b = some s2 →
      1 ≤ idx → ¬(idx < s1.length ∧ idx < s2.length) →
      (Tok.crossOverTok ∈ e ∨ Tok.crossUnderTok ∈ e) →
      evaluate e ind idx = false) ∧
    (∀ s1 s2, lookupInd ind a = some s1 → lookupInd ind b = some s2 →
      1 ≤ idx → idx < s1.length → idx < s2.length → Tok.crossOverTok ∈ e →
      (s1.getD (idx - 1) none = none ∨ s2.getD (idx - 1) none = none ∨
       s1.getD idx none = none ∨ s2.getD idx none = none) →
      evaluate e ind idx = false) := by
  refine ⟨?_, ?_, ?_, ?_, ?_⟩
  · intro s1 s2 h1 h2 hidx hr1 hr2
    constructor
    · intro hin
      rw [evaluate_crossOver_mem e ind idx hin,
        evalCrossover_inRange e ind idx true a b hids s1 s2 h1 h2 hidx hr1 hr2]
      rfl
    · intro hout hin
      rw [evaluate_crossUnder_mem e ind idx hout hin,
        evalCrossover_inRange e ind idx false a b hids s1 s2 h1 h2 hidx hr1 hr2]
      rfl
  · rintro hin rfl
    by_cases hover : Tok.crossOverTok ∈ e
    · rw [evaluate_crossOver_mem e ind 0 hover, evalCrossover_idxZero e ind true a b hids]
    · rcases hin with hin | hin
      · exact absurd hin hover
      · rw [evaluate_crossUnder_mem e ind 0 hover hin,
          evalCrossover_idxZero e ind false a b hids]
  · intro hin hnone
    by_cases hover : Tok.crossOverTok ∈ e
    · rw [evaluate_crossOver_mem e ind idx hover,
        evalCrossover_missing e ind idx true a b hids hnone]
    · rcases hin with hin | hin
      · exact absurd hin hover
      · rw [evaluate_crossUnder_mem e ind idx hover hin,
          evalCrossover_missing e ind idx false a b hids hnone]
  · intro s1 s2 h1 h2 hidx hrange hin
    by_cases hover : Tok.crossOverTok ∈ e
    · rw [evaluate_crossOver_mem e ind idx hover,
        evalCrossover_outOfRange e ind idx true a b hids s1 s2 h1 h2 hidx hrange]
    · rcases hin with hin | hin
      · exact absurd hin hover
      · rw [evaluate_crossUnder_mem e ind idx hover hin,
          evalCrossover_outOfRange e ind idx false a b hids s1 s2 h1 h2 hidx hrange]
  · intro s1 s2 h1 h2 hidx hr1 hr2 hin hnan
    have hred : evaluate e ind idx =
        (optLtB (s1.getD (idx - 1) none) (s2.getD (idx - 1) none) &&
         optGtB (s1.getD idx none) (s2.getD idx none)) := by
      rw [evaluate_crossOver_mem e ind idx hin,
        evalCrossover_inRange e ind idx true a b hids s1 s2 h1 h2 hidx hr1 hr2]
      rfl
    rw [hred]
    rcases hnan with h | h | h | h <;> rw [h] <;>
      simp [optLtB_none_left, optLtB_none_right, optGtB_none_left, optGtB_none_right]

/-- The tokens of `cross_under(b1,b2)` for the C3 counterexample. -/
def c3Expr : List Tok :=
  [Tok.crossUnderTok, Tok.lparen, Tok.id 1, Tok.comma, Tok.id 2, Tok.rparen]

/-- Two indicator series that are NaN at indices 0 and 1. -/
def c3Ind : IndMap := [(1, [none, none]), (2, [none, none])]

/-- Counterexample to C3 as stated: both referenced series are undefined
(NaN) at indices 0 and 1, so the claim demands `cross_under` to fail closed
(false) at index 1, yet it evaluates to true. -/
theorem c3_counterexample :
    lookupInd c3Ind 1 = some [none, none] ∧
    lookupInd c3Ind 2 = some [none, none] ∧
    evaluate c3Expr c3Ind 1 = true := by decide

/-- The tokens of `cross_over(b1,b2)` for the C3 witness. -/
def c3ExprOver : List Tok :=
  [Tok.crossOverTok, Tok.lparen, Tok.id 1, Tok.comma, Tok.id 2, Tok.rparen]

/-- Witness for the amended C3: `cross_over` on the NaN series fails closed. -/
theorem c3_crossover_amended_witness :
    evaluate c3ExprOver c3Ind 1 = false :=
  (c3_crossover_amended c3ExprOver c3Ind 1 1 2 (by decide)).2.2.2.2
    [none, none] [none, none] rfl rfl (by decide) (by decide) (by decide) (by decide)
    (Or.inl rfl)

/-- Whether a trade was recorded by the end-of-backtest forced close. -/
def isEndTrade (tr : Trade) : Bool := tr.exitReason = ExitReason.endOfBacktest

/-- Unfolding equation for `simStep` with the equity-updated state inlined. -/
theorem simStep_def (strat : Strategy) (ind : IndMap) (s : EngineState) (idx : ℕ)
    (bar : Bar) :
    simStep strat ind s idx bar =
      match (pushEquity s idx bar).position with
      | some p =>
        if checkStopLoss (pushEquity s idx bar) bar then
          closePosition (pushEquity s idx bar) (p.stopLoss.getD 0) idx
            ExitReason.stopLossHit
        else if checkTakeProfit (pushEquity s idx bar) bar then
          closePosition (pushEquity s idx bar) (p.takeProfit.getD 0) idx
            ExitReason.takeProfitHit
        else condPhase strat ind (pushEquity s idx bar) idx bar
      | none => condPhase strat ind (pushEquity s idx bar) idx bar := rfl

theorem openBuyPosition_trades (s : EngineState) (price : ℚ) (t : ℕ)
    (params : ActionParams) : (openBuyPosition s price t params).trades = s.trades := by
  simp only [openBuyPosition]
  split <;> rfl

/-- Closing with any reason other than `end-of-backtest` adds no
end-of-backtest trade. -/
theorem closePosition_isEnd_filter (s : EngineState) (price : ℚ) (t : ℕ)
    (r : ExitReason) (hr : r ≠ ExitReason.endOfBacktest) :
    (closePosition s price t r).trades.filter isEndTrade =
      s.trades.filter isEndTrade := by
  cases hp : s.position with
  | none => simp [closePosition, hp]
  | some p =>
    rw [closePosition_some s p hp]
    simp [List.filter_append, isEndTrade, hr]

theorem executeAction_isEnd_filter (s : EngineState) (bar : Bar) (t : ℕ)
    (ab : ActionBlock) :
    (executeAction s bar t ab).trades.filter isEndTrade =
      s.trades.filter isEndTrade := by
  obtain ⟨action, params⟩ := ab
  cases action with
  | buy =>
    simp only [executeAction]
    split
    · rw [openBuyPosition_trades]
    · rfl
  | sell =>
    simp only [executeAction]
    split
    · exact closePosition_isEnd_filter s bar.close t ExitReason.logic (by simp)
    · rfl
  | exitAll =>
    simp only [executeAction]
    split
    · exact closePosition_isEnd_filter s bar.close t ExitReason.exitAll (by simp)
    · rfl
  | unknown => rfl

theorem executeActions_isEnd_filter (bar : Bar) (t : ℕ) :
    ∀ (blocks : List ActionBlock) (s : EngineState),
      (executeActions s bar t blocks).trades.filter isEndTrade =
        s.trades.filter isEndTrade := by
  intro blocks
  induction blocks with
  | nil => intro s; rfl
  | cons ab rest ih =>
    intro s
    have hstep := ih (executeAction s bar t ab)
    simp only [executeActions, List.foldl_cons] at hstep ⊢
    rw [hstep, executeAction_isEnd_filter]

/-- No per-bar step of the simulation records an `end-of-backtest` trade. -/
theorem simStep_isEnd_filter (strat : Strategy) (ind : IndMap) (s : EngineState)
    (idx : ℕ) (bar : Bar) :
    (simStep strat ind s idx bar).trades.filter isEndTrade =
      s.trades.filter isEndTrade := by
  have hpe : (pushEquity s idx bar).trades = s.trades := rfl
  have hcond : (condPhase strat ind (pushEquity s idx bar) idx bar).trades.filter isEndTrade
      = s.trades.filter isEndTrade := by
    unfold condPhase
    split
    · rw [executeActions_isEnd_filter bar idx strat.actionBlocks, hpe]
    · rw [hpe]
  rw [simStep_def]
  split
  · split
    · rw [closePosition_isEnd_filter _ _ _ _ (by simp), hpe]
    · split
      · rw [closePosition_isEnd_filter _ _ _ _ (by simp), hpe]
      · exact hcond
  · exact hcond

theorem simBarsFrom_isEnd_filter (strat : Strategy) (ind : IndMap) :
    ∀ (bars : List Bar) (i : ℕ) (s : EngineState),
      (simBarsFrom strat ind i s bars).trades.filter isEndTrade =
        s.trades.filter isEndTrade := by
  intro bars
  induction bars with
  | nil => intro i s; rfl
  | cons b rest ih =>
    intro i s
    simp only [simBarsFrom]
    rw [ih (i + 1) (simStep strat ind s i b), simStep_isEnd_filter]

/-- Claim C8: in a backtest over a non-empty bar sequence that leaves a
position open after the last bar, the final trade list contains exactly one
trade with exit reason `end-of-backtest`, and every such trade's exit price
is the final bar's close. -/
theorem c8_forced_close (strat : Strategy) (ind : IndMap) (bars : List Bar)
    (cap : ℚ) (hbars : bars ≠ [])
    (hopen : (simulateBars strat ind (initState cap) bars).position.isSome) :
    ((runBacktest strat ind bars cap).trades.filter isEndTrade).length = 1 ∧
    ∀ tr ∈ (runBacktest strat ind bars cap).trades,
      tr.exitReason = ExitReason.endOfBacktest →
      tr.exitPrice = (bars.getLastD default).close := by
  obtain ⟨p, hp⟩ := Option.isSome_iff_exists.mp hopen
  have hsim : (simulateBars strat ind (initState cap) bars).trades.filter isEndTrade
      = [] := by
    rw [simulateBars, simBarsFrom_isEnd_filter strat ind bars 0 (initState cap)]
    rfl
  have hrun : runBacktest strat ind bars cap =
      closePosition (simulateBars strat ind (initState cap) bars)
        (bars.getLastD default).close (bars.length - 1) ExitReason.endOfBacktest := by
    simp [runBacktest, hp]
  rw [hrun, closePosition_some _ p hp]
  constructor
  · simp [List.filter_append, hsim, isEndTrade]
  · intro tr htr hres
    simp only [List.mem_append, List.mem_singleton] at htr
    rcases htr with htr | htr
    · exfalso
      have hmem : tr ∈ (simulateBars strat ind (initState cap) bars).trades.filter
          isEndTrade := by
        simp [List.mem_filter, htr, isEndTrade, hres]
      rw [hsim] at hmem
      exact absurd hmem (List.not_mem_nil tr)
    · rw [htr]

/-- Strategy for the C8 witness: the condition `1 > 0` always fires and the
BUY action uses the whole cash with stop-loss and take-profit disabled. -/
def c8Strat : Strategy :=
  ⟨[some [Tok.num 1, Tok.gt, Tok.num 0]],
   [⟨ActionKind.buy, ⟨some 1, some 0, some 0⟩⟩]⟩

/-- Two identical bars for the C8 witness. -/
def c8Bars : List Bar := [⟨100, 110, 90, 100, 0⟩, ⟨100, 110, 90, 100, 0⟩]

/-- Witness for C8 on a concrete two-bar run that buys on the first bar and
is still long after the second. -/
theorem c8_forced_close_witness :
    ((runBacktest c8Strat [] c8Bars 100000).trades.filter isEndTrade).length = 1 := by
  have hEval : ∀ i, evaluate [Tok.num 1, Tok.gt, Tok.num 0] ([] : IndMap) i = true :=
    fun i => rfl
  refine (c8_forced_close c8Strat [] c8Bars 100000 (by simp [c8Bars]) ?_).1
  norm_num [simulateBars, simBarsFrom, simStep, pushEquity, checkStopLoss,
    checkTakeProfit, condPhase, anyCondFires, executeActions, executeAction,
    openBuyPosition, effSizePct, effStopLossPct, effTakeProfitPct, initState,
    c8Strat, c8Bars, hEval]

/-! ## Cash non-negativity (claim C9) -/

/-- All prices of a bar are positive. -/
def barPos (bar : Bar) : Prop := 0 < bar.low ∧ 0 < bar.high ∧ 0 < bar.close

/-- Every BUY block's effective `sizePct` lies in `[0,1]` and its effective
`takeProfitPct` is at least `-1` (so the take-profit level is non-negative). -/
def buyParamsOk (strat : Strategy) : Prop :=
  ∀ ab ∈ strat.actionBlocks, ab.action = ActionKind.buy →
    0 ≤ effSizePct ab.params ∧ effSizePct ab.params ≤ 1 ∧
      -1 ≤ effTakeProfitPct ab.params

/-- Cash is non-negative, and an open position has non-negative quantity and
(if set) a non-negative take-profit level. -/
def cashInv (s : EngineState) : Prop :=
  0 ≤ s.cash ∧
    ∀ p, s.position = some p →
      0 ≤ p.qty ∧ ∀ tp, p.takeProfit = some tp → 0 ≤ tp

/-- A firing stop-loss check exposes a set, non-zero stop level at or above
the bar's low. -/
theorem checkStopLoss_true (s : EngineState) (bar : Bar) (p : Position)
    (hp : s.position = some p) (h : checkStopLoss s bar = true) :
    ∃ sl, p.stopLoss = some sl ∧ sl ≠ 0 ∧ bar.low ≤ sl := by
  simp only [checkStopLoss, hp] at h
  cases hsl : p.stopLoss with
  | none => simp only [hsl] at h; simp at h
  | some sl =>
    simp only [hsl] at h
    by_cases hz : sl = 0
    · rw [if_pos hz] at h; simp at h
    · rw [if_neg hz] at h
      exact ⟨sl, rfl, hz, by simpa using h⟩

/-- A firing take-profit check exposes a set, non-zero take-profit level at
or below the bar's high. -/
theorem checkTakeProfit_true (s : EngineState) (bar : Bar) (p : Position)
    (hp : s.position = some p) (h : checkTakeProfit s bar = true) :
    ∃ tp, p.takeProfit = some tp ∧ tp ≠ 0 ∧ tp ≤ bar.high := by
  simp only [checkTakeProfit, hp] at h
  cases htp : p.takeProfit with
  | none => simp only [htp] at h; simp at h
  | some tp =>
    simp only [htp] at h
    by_cases hz : tp = 0
    · rw [if_pos hz] at h; simp at h
    · rw [if_neg hz] at h
      exact ⟨tp, rfl, hz, by simpa using h⟩

theorem openBuyPosition_cashInv (s : EngineState) (price : ℚ) (t : ℕ)
    (params : ActionParams) (hs : cashInv s) (hprice : 0 < price)
    (hsz0 : 0 ≤ effSizePct params) (hsz1 : effSizePct params ≤ 1)
    (htp : -1 ≤ effTakeProfitPct params) :
    cashInv (openBuyPosition s price t params) := by
  simp only [openBuyPosition]
  split
  · exact hs
  · refine ⟨?_, ?_⟩
    · have h1 : s.cash * effSizePct params ≤ s.cash * 1 :=
        mul_le_mul_of_nonneg_left hsz1 hs.1
      simp only []
      nlinarith [hs.1]
    · intro p hp
      simp only [Option.some.injEq] at hp
      refine ⟨?_, ?_⟩
      · rw [← hp]
        exact div_nonneg (mul_nonneg hs.1 hsz0) hprice.le
      · intro tp htpp
        rw [← hp] at htpp
        simp only [] at htpp
        split at htpp
        · exact absurd htpp (by simp)
        · simp only [Option.some.injEq] at htpp
          rw [← htpp]
          nlinarith

theorem closePosition_cashInv (s : EngineState) (price : ℚ) (t : ℕ) (r : ExitReason)
    (hs : cashInv s) (hpr : ∀ p, s.position = some p → 0 ≤ p.qty * price) :
    cashInv (closePosition s price t r) := by
  cases hp : s.position with
  | none =>
    have : closePosition s price t r = s := by simp [closePosition, hp]
    rw [this]; exact hs
  | some p =>
    rw [closePosition_some s p hp]
    refine ⟨add_nonneg hs.1 (hpr p hp), ?_⟩
    intro q hq
    exact absurd hq (by simp)

theorem executeAction_cashInv (s : EngineState) (bar : Bar) (t : ℕ) (ab : ActionBlock)
    (hs : cashInv s) (hbar : barPos bar)
    (hok : ab.action = ActionKind.buy →
      0 ≤ effSizePct ab.params ∧ effSizePct ab.params ≤ 1 ∧
        -1 ≤ effTakeProfitPct ab.params) :
    cashInv (executeAction s bar t ab) := by
  obtain ⟨action, params⟩ := ab
  cases action with
  | buy =>
    simp only [executeAction]
    split
    · obtain ⟨h1, h2, h3⟩ := hok rfl
      exact openBuyPosition_cashInv s bar.close t params hs hbar.2.2 h1 h2 h3
    · exact hs
  | sell =>
    simp only [executeAction]
    split
    · refine closePosition_cashInv s bar.close t ExitReason.logic hs ?_
      intro p hp
      exact mul_nonneg (hs.2 p hp).1 hbar.2.2.le
    · exact hs
  | exitAll =>
    simp only [executeAction]
    split
    · refine closePosition_cashInv s bar.close t ExitReason.exitAll hs ?_
      intro p hp
      exact mul_nonneg (hs.2 p hp).1 hbar.2.2.le
    · exact hs
  | unknown => exact hs

theorem executeActions_cashInv (bar : Bar) (t : ℕ) (hbar : barPos bar) :
    ∀ (blocks : List ActionBlock) (s : EngineState), cashInv s →
      (∀ ab ∈ blocks, ab.action = ActionKind.buy →
        0 ≤ effSizePct ab.params ∧ effSizePct ab.params ≤ 1 ∧
          -1 ≤ effTakeProfitPct ab.params) →
      cashInv (executeActions s bar t blocks) := by
  intro blocks
  induction blocks with
  | nil => intro s hs _; exact hs
  | cons ab rest ih =>
    intro s hs hok
    have h1 : cashInv (executeAction s bar t ab) :=
      executeAction_cashInv s bar t ab hs hbar (hok ab (by simp))
    have h2 := ih (executeAction s bar t ab) h1
      (fun ab2 hab2 => hok ab2 (List.mem_cons_of_mem ab hab2))
    simpa only [executeActions, List.foldl_cons] using h2

/-- One simulation step preserves the cash invariant. -/
theorem simStep_cashInv (strat : Strategy) (ind : IndMap) (s : EngineState)
    (idx : ℕ) (bar : Bar) (hs : cashInv s) (hbar : barPos bar)
    (hok : buyParamsOk strat) : cashInv (simStep strat ind s idx bar) := by
  have hpe : cashInv (pushEquity s idx bar) := hs
  have hcond : cashInv (condPhase strat ind (pushEquity s idx bar) idx bar) := by
    unfold condPhase
    split
    · exact executeActions_cashInv bar idx hbar strat.actionBlocks _ hpe hok
    · exact hpe
  rw [simStep_def]
  split
  · rename_i p heq
    split
    · rename_i hstop
      obtain ⟨sl, hsl, hslz, hlow⟩ := checkStopLoss_true _ bar p heq hstop
      refine closePosition_cashInv _ _ _ _ hpe ?_
      intro q hq
      rw [heq, Option.some.injEq] at hq
      rw [← hq, hsl]
      exact mul_nonneg (hpe.2 p heq).1 (le_trans hbar.1.le hlow)
    · split
      · rename_i htp2
        obtain ⟨tp, htp, htpz, hhigh⟩ := checkTakeProfit_true _ bar p heq htp2
        refine closePosition_cashInv _ _ _ _ hpe ?_
        intro q hq
        rw [heq, Option.some.injEq] at hq
        rw [← hq, htp]
        exact mul_nonneg (hpe.2 p heq).1 ((hpe.2 p heq).2 tp htp)
      · exact hcond
  · exact hcond

theorem simBarsFrom_cashInv (strat : Strategy) (ind : IndMap)
    (hok : buyParamsOk strat) :
    ∀ (bars : List Bar) (i : ℕ) (s : EngineState), cashInv s →
      (∀ b ∈ bars, barPos b) → cashInv (simBarsFrom strat ind i s bars) := by
  intro bars
  induction bars with
  | nil => intro i s hs _; exact hs
  | cons b rest ih =>
    intro i s hs hbars
    simp only [simBarsFrom]
    exact ih (i + 1) (simStep strat ind s i b)
      (simStep_cashInv strat ind s i b hs (hbars b (by simp)) hok)
      (fun b2 hb2 => hbars b2 (List.mem_cons_of_mem b hb2))

theorem getLastD_mem {α : Type} (l : List α) (d : α) (h : l ≠ []) :
    l.getLastD d ∈ l := by
  induction l generalizing d with
  | nil => exact absurd rfl h
  | cons a as ih =>
    rw [List.getLastD_cons]
    cases has : as with
    | nil => subst has; simp [List.getLastD]
    | cons b bs =>
      subst has
      exact List.mem_cons_of_mem a (ih a (by simp))

/-- Unfolding equation for `runBacktest`. -/
theorem runBacktest_def (strat : Strategy) (ind : IndMap) (bars : List Bar) (cap : ℚ) :
    runBacktest strat ind bars cap =
      match (simulateBars strat ind (initState cap) bars).position with
      | some _ =>
        closePosition (simulateBars strat ind (initState cap) bars)
          (bars.getLastD default).close (bars.length - 1) ExitReason.endOfBacktest
      | none => simulateBars strat ind (initState cap) bars := rfl

/-- Claim C9 (amended): with every BUY block's effective `sizePct` in `[0,1]`
and effective `takeProfitPct ≥ -1`, all bar prices positive and non-negative
initial capital, cash stays ≥ 0 after every bar of the simulation and after
the end-of-run forced close; opening deducts `cash·sizePct` (or is a no-op),
closing always adds exactly `qty·exitPrice`, and no other operation mutates
cash (the equity append and condition evaluation leave cash unchanged). -/
theorem c9_cash_nonneg_amended (strat : Strategy) (ind : IndMap) (bars : List Bar)
    (cap : ℚ) (hcap : 0 ≤ cap) (hok : buyParamsOk strat)
    (hbars : ∀ b ∈ bars, barPos b) :
    (∀ l1 l2, bars = l1 ++ l2 →
      0 ≤ (simulateBars strat ind (initState cap) l1).cash) ∧
    0 ≤ (runBacktest strat ind bars cap).cash ∧
    (∀ s : EngineState, ∀ price t params, s.position = none →
      (openBuyPosition s price t params).cash = s.cash ∨
      (openBuyPosition s price t params).cash = s.cash - s.cash * effSizePct params) ∧
    (∀ s : EngineState, ∀ p, s.position = some p → ∀ price t r,
      (closePosition s price t r).cash = s.cash + p.qty * price) ∧
    (∀ s : EngineState, ∀ idx bar, (pushEquity s idx bar).cash = s.cash) := by
  have hinit : cashInv (initState cap) := by
    refine ⟨hcap, ?_⟩
    intro p hp
    exact absurd hp (by simp [initState])
  refine ⟨?_, ?_, ?_, ?_, ?_⟩
  · intro l1 l2 hsplit
    refine (simBarsFrom_cashInv strat ind hok l1 0 (initState cap) hinit ?_).1
    intro b hb
    exact hbars b (by rw [hsplit]; exact List.mem_append_left l2 hb)
  · have hsim : cashInv (simulateBars strat ind (initState cap) bars) :=
      simBarsFrom_cashInv strat ind hok bars 0 (initState cap) hinit hbars
    rw [runBacktest_def]
    split
    · rename_i p heq
      have hne : bars ≠ [] := by
        intro hnil
        rw [hnil] at heq
        simp [simulateBars, simBarsFrom, initState] at heq
      have hlast : barPos (bars.getLastD default) :=
        hbars (bars.getLastD default) (getLastD_mem bars default hne)
      refine (closePosition_cashInv _ _ _ _ hsim ?_).1
      intro q hq
      exact mul_nonneg (hsim.2 q hq).1 hlast.2.2.le
    · exact hsim.1
  · intro s price t params _
    simp only [openBuyPosition]
    split
    · exact Or.inl rfl
    · exact Or.inr rfl
  · intro s p hp price t r
    rw [closePosition_some s p hp]
  · intro s idx bar
    rfl

/-- Strategy for the C9 counterexample: always-firing condition, BUY with
`sizePct = 1`, stop-loss disabled and `takeProfitPct = -2` (so the stored
take-profit level is negative and always "triggers"). -/
def c9Strat : Strategy :=
  ⟨[some [Tok.num 1, Tok.gt, Tok.num 0]],
   [⟨ActionKind.buy, ⟨some 1, some 0, some (-2)⟩⟩]⟩

/-- Two identical all-positive bars for the C9 counterexample. -/
def c9Bars : List Bar := [⟨100, 110, 90, 100, 0⟩, ⟨100, 110, 90, 100, 0⟩]

/-- Counterexample to C9 as stated: all bar prices are positive and every
BUY action's sizePct lies in `[0,1]`, yet the run ends with cash
`-100000 < 0` — the position opened at 100 is "closed" at the negative
take-profit level `-100`, so closing adds a negative amount to cash. -/
theorem c9_counterexample :
    (∀ b ∈ c9Bars, 0 < b.opn ∧ 0 < b.high ∧ 0 < b.low ∧ 0 < b.close) ∧
    (∀ ab ∈ c9Strat.actionBlocks, ab.action = ActionKind.buy →
      0 ≤ effSizePct ab.params ∧ effSizePct ab.params ≤ 1) ∧
    (runBacktest c9Strat [] c9Bars 100000).cash < 0 := by
  have hEval : ∀ i, evaluate [Tok.num 1, Tok.gt, Tok.num 0] ([] : IndMap) i = true :=
    fun i => rfl
  refine ⟨by norm_num [c9Bars], by norm_num [c9Strat, effSizePct], ?_⟩
  norm_num [runBacktest, simulateBars, simBarsFrom, simStep, pushEquity, checkStopLoss,
    checkTakeProfit, condPhase, anyCondFires, executeActions, executeAction,
    openBuyPosition, closePosition, effSizePct, effStopLossPct, effTakeProfitPct,
    initState, c9Strat, c9Bars, hEval]

/-- Witness for the amended C9 on the concrete two-bar always-buy run. -/
theorem c9_cash_nonneg_amended_witness :
    0 ≤ (runBacktest c8Strat [] c8Bars 100000).cash :=
  (c9_cash_nonneg_amended c8Strat [] c8Bars 100000 (by norm_num)
    (by norm_num [buyParamsOk, c8Strat, effSizePct, effTakeProfitPct])
    (by norm_num [c8Bars, barPos])).2.1

/-! ## Exit prices equal the stored levels (claim C10) -/

/-- An open position's stop/take-profit levels are exactly the levels some
BUY block of the strategy derives from its entry price. -/
def posLevelsOk (strat : Strategy) (p : Position) : Prop :=
  ∃ ab ∈ strat.actionBlocks, ab.action = ActionKind.buy ∧
    p.stopLoss = (if effStopLossPct ab.params = 0 then none
      else some (p.avgPrice * (1 - effStopLossPct ab.params))) ∧
    p.takeProfit = (if effTakeProfitPct ab.params = 0 then none
      else some (p.avgPrice * (1 + effTakeProfitPct ab.params)))

/-- A stop-loss trade exited exactly at `entryPrice·(1 − stopLossPct)` and a
take-profit trade exactly at `entryPrice·(1 + takeProfitPct)`, for the
percentages of some BUY block of the strategy. -/
def tradeLevelsOk (strat : Strategy) (tr : Trade) : Prop :=
  (tr.exitReason = ExitReason.stopLossHit →
    ∃ ab ∈ strat.actionBlocks, ab.action = ActionKind.buy ∧
      effStopLossPct ab.params ≠ 0 ∧
      tr.exitPrice = tr.entryPrice * (1 - effStopLossPct ab.params)) ∧
  (tr.exitReason = ExitReason.takeProfitHit →
    ∃ ab ∈ strat.actionBlocks, ab.action = ActionKind.buy ∧
      effTakeProfitPct ab.params ≠ 0 ∧
      tr.exitPrice = tr.entryPrice * (1 + effTakeProfitPct ab.params))

/-- Every open position and every recorded trade respects the levels. -/
def ledgerOk (strat : Strategy) (s : EngineState) : Prop :=
  (∀ p, s.position = some p → posLevelsOk strat p) ∧
  (∀ tr ∈ s.trades, tradeLevelsOk strat tr)

theorem closePosition_ledgerOk_other (strat : Strategy) (s : EngineState) (price : ℚ)
    (t : ℕ) (r : ExitReason) (hr1 : r ≠ ExitReason.stopLossHit)
    (hr2 : r ≠ ExitReason.takeProfitHit) (hs : ledgerOk strat s) :
    ledgerOk strat (closePosition s price t r) := by
  cases hp : s.position with
  | none =>
    have hcl : closePosition s price t r = s := by simp [closePosition, hp]
    rw [hcl]; exact hs
  | some p =>
    rw [closePosition_some s p hp]
    constructor
    · intro q hq
      exact absurd hq (by simp)
    · intro tr htr
      rw [List.mem_append] at htr
      rcases htr with htr | htr
      · exact hs.2 tr htr
      · rw [List.mem_singleton] at htr
        subst htr
        exact ⟨fun hc => absurd hc hr1, fun hc => absurd hc hr2⟩

theorem closePosition_ledgerOk_stop (strat : Strategy) (s : EngineState) (p : Position)
    (t : ℕ) (sl : ℚ) (hp : s.position = some p) (hpos : posLevelsOk strat p)
    (hsl : p.stopLoss = some sl) (hs : ledgerOk strat s) :
    ledgerOk strat (closePosition s sl t ExitReason.stopLossHit) := by
  obtain ⟨ab, hab, habuy, hsl2, _⟩ := hpos
  have hz : effStopLossPct ab.params ≠ 0 := by
    intro hz
    rw [hsl2, if_pos hz] at hsl
    exact Option.noConfusion hsl
  rw [hsl2, if_neg hz, Option.some.injEq] at hsl
  rw [closePosition_some s p hp]
  constructor
  · intro q hq
    exact absurd hq (by simp)
  · intro tr htr
    rw [List.mem_append] at htr
    rcases htr with htr | htr
    · exact hs.2 tr htr
    · rw [List.mem_singleton] at htr
      subst htr
      constructor
      · intro _
        exact ⟨ab, hab, habuy, hz, hsl.symm⟩
      · intro hc
        simp at hc

theorem closePosition_ledgerOk_take (strat : Strategy) (s : EngineState) (p : Position)
    (t : ℕ) (tp : ℚ) (hp : s.position = some p) (hpos : posLevelsOk strat p)
    (htp : p.takeProfit = some tp) (hs : ledgerOk strat s) :
    ledgerOk strat (closePosition s tp t ExitReason.takeProfitHit) := by
  obtain ⟨ab, hab, habuy, _, htp2⟩ := hpos
  have hz : effTakeProfitPct ab.params ≠ 0 := by
    intro hz
    rw [htp2, if_pos hz] at htp
    exact Option.noConfusion htp
  rw [htp2, if_neg hz, Option.some.injEq] at htp
  rw [closePosition_some s p hp]
  constructor
  · intro q hq
    exact absurd hq (by simp)
  · intro tr htr
    rw [List.mem_append] at htr
    rcases htr with htr | htr
    · exact hs.2 tr htr
    · rw [List.mem_singleton] at htr
      subst htr
      constructor
      · intro hc
        simp at hc
      · intro _
        exact ⟨ab, hab, habuy, hz, htp.symm⟩

theorem openBuyPosition_ledgerOk (strat : Strategy) (s : EngineState) (price : ℚ)
    (t : ℕ) (ab : ActionBlock) (hab : ab ∈ strat.actionBlocks)
    (habuy : ab.action = ActionKind.buy) (hs : ledgerOk strat s) :
    ledgerOk strat (openBuyPosition s price t ab.params) := by
  simp only [openBuyPosition]
  split
  · exact hs
  · constructor
    · intro q hq
      simp only [Option.some.injEq] at hq
      subst hq
      exact ⟨ab, hab, habuy, rfl, rfl⟩
    · intro tr htr
      exact hs.2 tr htr

theorem executeAction_ledgerOk (strat : Strategy) (s : EngineState) (bar : Bar)
    (t : ℕ) (ab : ActionBlock) (hab : ab ∈ strat.actionBlocks)
    (hs : ledgerOk strat s) : ledgerOk strat (executeAction s bar t ab) := by
  cases hact : ab.action with
  | buy =>
    simp only [executeAction, hact]
    split
    · exact openBuyPosition_ledgerOk strat s bar.close t ab hab hact hs
    · exact hs
  | sell =>
    simp only [executeAction, hact]
    split
    · exact closePosition_ledgerOk_other strat s bar.close t ExitReason.logic
        (by simp) (by simp) hs
    · exact hs
  | exitAll =>
    simp only [executeAction, hact]
    split
    · exact closePosition_ledgerOk_other strat s bar.close t ExitReason.exitAll
        (by simp) (by simp) hs
    · exact hs
  | unknown =>
    simp only [executeAction, hact]
    exact hs

theorem executeActions_ledgerOk (strat : Strategy) (bar : Bar) (t : ℕ) :
    ∀ (blocks : List ActionBlock), (∀ ab ∈ blocks, ab ∈ strat.actionBlocks) →
      ∀ s, ledgerOk strat s → ledgerOk strat (executeActions s bar t blocks) := by
  intro blocks
  induction blocks with
  | nil => intro _ s hs; exact hs
  | cons ab rest ih =>
    intro hsub s hs
    have h1 : ledgerOk strat (executeAction s bar t ab) :=
      executeAction_ledgerOk strat s bar t ab (hsub ab (by simp)) hs
    have h2 := ih (fun ab2 hab2 => hsub ab2 (List.mem_cons_of_mem ab hab2))
      (executeAction s bar t ab) h1
    simpa only [executeActions, List.foldl_cons] using h2

theorem simStep_ledgerOk (strat : Strategy) (ind : IndMap) (s : EngineState)
    (idx : ℕ) (bar : Bar) (hs : ledgerOk strat s) :
    ledgerOk strat (simStep strat ind s idx bar) := by
  have hpe : ledgerOk strat (pushEquity s idx bar) := hs
  have hcond : ledgerOk strat (condPhase strat ind (pushEquity s idx bar) idx bar) := by
    unfold condPhase
    split
    · exact executeActions_ledgerOk strat bar idx strat.actionBlocks (fun _ h => h) _ hpe
    · exact hpe
  rw [simStep_def]
  split
  · rename_i p heq
    split
    · rename_i hstop
      obtain ⟨sl, hsl, _, _⟩ := checkStopLoss_true _ bar p heq hstop
      have hres := closePosition_ledgerOk_stop strat _ p idx sl heq (hpe.1 p heq) hsl hpe
      rw [hsl]
      simpa only [Option.getD_some] using hres
    · split
      · rename_i htrig
        obtain ⟨tp, htp, _, _⟩ := checkTakeProfit_true _ bar p heq htrig
        have hres := closePosition_ledgerOk_take strat _ p idx tp heq (hpe.1 p heq) htp hpe
        rw [htp]
        simpa only [Option.getD_some] using hres
      · exact hcond
  · exact hcond

theorem simBarsFrom_ledgerOk (strat : Strategy) (ind : IndMap) :
    ∀ (bars : List Bar) (i : ℕ) (s : EngineState), ledgerOk strat s →
      ledgerOk strat (simBarsFrom strat ind i s bars) := by
  intro bars
  induction bars with
  | nil => intro i s hs; exact hs
  | cons b rest ih =>
    intro i s hs
    simp only [simBarsFrom]
    exact ih (i + 1) (simStep strat ind s i b) (simStep_ledgerOk strat ind s i b hs)

/-- Claim C10: every trade of a backtest run closed by the stop-loss trigger
has `exitPrice = entryPrice·(1 − stopLossPct)` and every trade closed by the
take-profit trigger has `exitPrice = entryPrice·(1 + takeProfitPct)`, for the
effective percentages of a BUY block of the strategy — the exit price is the
stored level, never a bar price. -/
theorem c10_exit_at_levels (strat : Strategy) (ind : IndMap) (bars : List Bar)
    (cap : ℚ) :
    ∀ tr ∈ (runBacktest strat ind bars cap).trades, tradeLevelsOk strat tr := by
  have hinit : ledgerOk strat (initState cap) := by
    constructor
    · intro p hp
      exact absurd hp (by simp [initState])
    · intro tr htr
      exact absurd htr (by simp [initState])
  have hsim : ledgerOk strat (simulateBars strat ind (initState cap) bars) :=
    simBarsFrom_ledgerOk strat ind bars 0 (initState cap) hinit
  rw [runBacktest_def]
  split
  · exact (closePosition_ledgerOk_other strat _ _ _ ExitReason.endOfBacktest
      (by simp) (by simp) hsim).2
  · exact hsim.2

/-- Strategy for the C10 witness: always-firing condition, BUY of the whole
cash with a 10% stop-loss and take-profit disabled. -/
def c10Strat : Strategy :=
  ⟨[some [Tok.num 1, Tok.gt, Tok.num 0]],
   [⟨ActionKind.buy, ⟨some 1, some (1/10), some 0⟩⟩]⟩

/-- Bars for the C10 witness: entry at close 100 on the first bar, the
second bar's low 85 pierces the stop level 90. -/
def c10Bars : List Bar := [⟨100, 110, 95, 100, 0⟩, ⟨100, 110, 85, 100, 0⟩]

/-- Witness for C10: the concrete run records exactly the stop-loss trade
closed at level 90 = 100·(1 − 1/10), and it satisfies `tradeLevelsOk`. -/
theorem c10_exit_at_levels_witness :
    tradeLevelsOk c10Strat
      { qty := 1000, entryPrice := 100, exitPrice := 90, stopLoss := some 90,
        takeProfit := none, pnl := -10000, pnlPct := -10,
        exitReason := ExitReason.stopLossHit, entryTime := 0, exitTime := 1 } := by
  have hEval : ∀ i, evaluate [Tok.num 1, Tok.gt, Tok.num 0] ([] : IndMap) i = true :=
    fun i => rfl
  have htr : (runBacktest c10Strat [] c10Bars 100000).trades =
      [{ qty := 1000, entryPrice := 100, exitPrice := 90, stopLoss := some 90,
         takeProfit := none, pnl := -10000, pnlPct := -10,
         exitReason := ExitReason.stopLossHit, entryTime := 0, exitTime := 1 }] := by
    norm_num [runBacktest, simulateBars, simBarsFrom, simStep, pushEquity, checkStopLoss,
      checkTakeProfit, condPhase, anyCondFires, executeActions, executeAction,
      openBuyPosition, closePosition, effSizePct, effStopLossPct, effTakeProfitPct,
      initState, c10Strat, c10Bars, hEval]
  exact c10_exit_at_levels c10Strat [] c10Bars 100000 _
    (by rw [htr]; exact List.mem_singleton_self _)

/-! ## Trade lifecycle (claim C4) -/

/-- Whether a forward trade dict is the open trade of the given symbol. -/
def isOpenFor (symbol : ℕ) (tr : FwdTrade) : Bool :=
  tr.symbol = symbol ∧ tr.status = TradeStatus.openTr

theorem lookupHolding_setHolding (hs : List (ℕ × Holding)) (n : ℕ) (h : Holding) :
    lookupHolding (setHolding hs n h) n = some h := by
  induction hs with
  | nil => simp [setHolding, lookupHolding]
  | cons mh rest ih =>
    obtain ⟨m, h0⟩ := mh
    by_cases hmn : m = n
    · simp [setHolding, hmn, lookupHolding]
    · simp [setHolding, hmn, lookupHolding, ih]

theorem lookupHolding_not_mem (hs : List (ℕ × Holding)) (n : ℕ)
    (h : n ∉ hs.map Prod.fst) : lookupHolding hs n = none := by
  induction hs with
  | nil => rfl
  | cons mh rest ih =>
    obtain ⟨m, h0⟩ := mh
    simp only [List.map_cons, List.mem_cons] at h
    push_neg at h
    simp only [lookupHolding]
    rw [if_neg fun hh => h.1 hh.symm]
    exact ih h.2

theorem lookupHolding_removeHolding (hs : List (ℕ × Holding)) (n : ℕ)
    (hnd : (hs.map Prod.fst).Nodup) :
    lookupHolding (removeHolding hs n) n = none := by
  induction hs with
  | nil => rfl
  | cons mh rest ih =>
    obtain ⟨m, h0⟩ := mh
    simp only [List.map_cons, List.nodup_cons] at hnd
    by_cases hmn : m = n
    · subst hmn
      simp only [removeHolding, if_pos rfl]
      exact lookupHolding_not_mem rest m hnd.1
    · simp only [removeHolding, if_neg hmn, lookupHolding]
      exact ih hnd.2

theorem markFirstOpenClosed_filter (symbol : ℕ) (price : ℚ) (r : ExitReason)
    (pnl pnlPct : ℚ) :
    ∀ trades : List FwdTrade, (trades.filter (isOpenFor symbol)).length = 1 →
      ((markFirstOpenClosed trades symbol price r pnl pnlPct).filter
        (isOpenFor symbol)).length = 0 := by
  intro trades
  induction trades with
  | nil => intro h; simp at h
  | cons t rest ih =>
    intro h
    by_cases hopen : t.symbol = symbol ∧ t.status = TradeStatus.openTr
    · have hft : isOpenFor symbol t = true := by
        simp [isOpenFor, hopen.1, hopen.2]
      have hfm : isOpenFor symbol
          { t with status := TradeStatus.closedTr, exitPrice := some price,
                   exitReason := some r, pnl := pnl, pnlPct := pnlPct } = false := by
        simp [isOpenFor]
      simp only [List.filter_cons, hft, if_true, List.length_cons] at h
      simp only [markFirstOpenClosed, if_pos hopen, List.filter_cons, hfm,
        Bool.false_eq_true, if_false]
      omega
    · have hft : isOpenFor symbol t = false := by
        simp only [isOpenFor, decide_eq_false_iff_not]
        exact fun hc => hopen ⟨by simpa using hc.1, by simpa using hc.2⟩
      simp only [List.filter_cons, hft, Bool.false_eq_true, if_false] at h
      simp only [markFirstOpenClosed, if_neg hopen, List.filter_cons, hft,
        Bool.false_eq_true, if_false]
      exact ih h

theorem markFirstOpenClosed_no_reopen (symbol : ℕ) (price : ℚ) (r : ExitReason)
    (pnl pnlPct : ℚ) :
    ∀ (trades : List FwdTrade) (tr : FwdTrade),
      tr ∈ markFirstOpenClosed trades symbol price r pnl pnlPct →
      tr.status = TradeStatus.openTr → tr ∈ trades := by
  intro trades
  induction trades with
  | nil =>
    intro tr h _
    simpa [markFirstOpenClosed] using h
  | cons t rest ih =>
    intro tr h hst
    by_cases hopen : t.symbol = symbol ∧ t.status = TradeStatus.openTr
    · simp only [markFirstOpenClosed, if_pos hopen] at h
      rcases List.mem_cons.mp h with h | h
      · subst h; simp at hst
      · exact List.mem_cons_of_mem t h
    · simp only [markFirstOpenClosed, if_neg hopen] at h
      rcases List.mem_cons.mp h with h | h
      · subst h; exact List.mem_cons_self _ _
      · exact List.mem_cons_of_mem t (ih tr h hst)

/-- Unfolding equation for `fwdClosePosition` when the holding exists. -/
theorem fwdClosePosition_some (P : FwdPortfolio) (symbol : ℕ) (h : Holding)
    (price : ℚ) (r : ExitReason) (hh : lookupHolding P.holdings symbol = some h) :
    fwdClosePosition P symbol price r =
      { P with
        cash := P.cash + h.qty * price
        holdings := removeHolding P.holdings symbol
        trades := markFirstOpenClosed P.trades symbol price r
          (h.qty * price - h.qty * h.avgPrice)
          ((h.qty * price - h.qty * h.avgPrice) / (h.qty * h.avgPrice) * 100)
        equityCurve := P.equityCurve ++
          [P.cash + h.qty * price + holdingsValue (removeHolding P.holdings symbol)] } := by
  unfold fwdClosePosition
  rw [hh]

/-- Claim C4 (amended): the two engines differ.  In the backtest engine no
Trade record exists while the Position is open: opening a position leaves the
trade list unchanged, and the Trade is created exactly once, already carrying
its exit data, at the moment the position closes.  In the forward runner the
claimed lifecycle holds operation-wise: opening a position (when the sizing
guards pass) appends a Trade in the 'open' state and registers the holding;
closing with a holding present removes the holding and marks the first open
Trade of that symbol 'closed' — so a symbol with exactly one open Trade has
none afterwards — and no trade is ever moved back to the 'open' state. -/
theorem c4_trade_lifecycle_amended :
    (∀ (s : EngineState) (price : ℚ) (t : ℕ) (params : ActionParams),
      (openBuyPosition s price t params).trades = s.trades) ∧
    (∀ (s : EngineState) (p : Position) (price : ℚ) (t : ℕ) (r : ExitReason),
      s.position = some p →
      (closePosition s price t r).position = none ∧
      ∃ tr : Trade, (closePosition s price t r).trades = s.trades ++ [tr]) ∧
    (∀ (P : FwdPortfolio) (symbol : ℕ) (price : ℚ) (params : ActionParams),
      ¬(P.cash * effSizePct params / price ≤ 0 ∨ P.cash * effSizePct params > P.cash) →
      ∃ tr : FwdTrade,
        (fwdOpenPosition P symbol price params).trades = P.trades ++ [tr] ∧
        tr.status = TradeStatus.openTr ∧ tr.symbol = symbol ∧
        (lookupHolding (fwdOpenPosition P symbol price params).holdings symbol).isSome
          = true) ∧
    (∀ (P : FwdPortfolio) (symbol : ℕ) (h : Holding) (price : ℚ) (r : ExitReason),
      lookupHolding P.holdings symbol = some h →
      ((P.holdings.map Prod.fst).Nodup →
        lookupHolding (fwdClosePosition P symbol price r).holdings symbol = none) ∧
      ((P.trades.filter (isOpenFor symbol)).length = 1 →
        ((fwdClosePosition P symbol price r).trades.filter (isOpenFor symbol)).length
          = 0) ∧
      (∀ tr ∈ (fwdClosePosition P symbol price r).trades,
        tr.status = TradeStatus.openTr → tr ∈ P.trades)) := by
  refine ⟨openBuyPosition_trades, ?_, ?_, ?_⟩
  · intro s p price t r hp
    rw [closePosition_some s p hp]
    exact ⟨rfl, _, rfl⟩
  · intro P symbol price params hg
    simp only [fwdOpenPosition]
    rw [if_neg hg]
    refine ⟨_, rfl, rfl, rfl, ?_⟩
    rw [lookupHolding_setHolding]
    rfl
  · intro P symbol h price r hh
    rw [fwdClosePosition_some P symbol h price r hh]
    refine ⟨?_, ?_, ?_⟩
    · intro hnd
      exact lookupHolding_removeHolding P.holdings symbol hnd
    · intro h1
      exact markFirstOpenClosed_filter symbol price r _ _ P.trades h1
    · intro tr htr hst
      exact markFirstOpenClosed_no_reopen symbol price r _ _ P.trades tr htr hst

/-- Strategy for the C4 counterexample: an always-firing condition and one
all-in BUY with stops disabled. -/
def c4Strat : Strategy :=
  ⟨[some [Tok.num 1, Tok.gt, Tok.num 0]],
   [⟨ActionKind.buy, ⟨some 1, some 0, some 0⟩⟩]⟩

/-- Bar for the C4 counterexample. -/
def c4Bar : Bar := ⟨100, 110, 90, 100, 0⟩

/-- Counterexample to C4 as stated: immediately after the backtest driver
processes a bar whose BUY opens a position, the Position exists but the
trade list is EMPTY — the backtest engine creates no Trade record in the
'open' state when a Position opens, so "a Position exists iff the symbol has
an open Trade" fails. -/
theorem c4_counterexample :
    (simStep c4Strat [] (initState 100000) 0 c4Bar).position.isSome = true ∧
    (simStep c4Strat [] (initState 100000) 0 c4Bar).trades = [] := by
  have hEval : ∀ i, evaluate [Tok.num 1, Tok.gt, Tok.num 0] ([] : IndMap) i = true :=
    fun i => rfl
  norm_num [simStep, pushEquity, checkStopLoss, checkTakeProfit, condPhase,
    anyCondFires, executeActions, executeAction, openBuyPosition, effSizePct,
    effStopLossPct, effTakeProfitPct, initState, c4Strat, c4Bar, hEval]

/-- Flat portfolio for the C4 witness. -/
def c4Port : FwdPortfolio := ⟨1000, [], [], []⟩

/-- BUY parameters for the C4 witness. -/
def c4Params : ActionParams := ⟨some (1/2), some 0, some 0⟩

/-- Witness for the amended C4: a concrete forward-runner open appends
exactly one trade, in the 'open' state, and registers the holding. -/
theorem c4_trade_lifecycle_amended_witness :
    (fwdOpenPosition c4Port 7 10 c4Params).trades.map FwdTrade.status =
      [TradeStatus.openTr] ∧
    (lookupHolding (fwdOpenPosition c4Port 7 10 c4Params).holdings 7).isSome = true := by
  obtain ⟨tr, htr, hst, hsym, hhold⟩ :=
    c4_trade_lifecycle_amended.2.2.1 c4Port 7 10 c4Params
      (by norm_num [c4Port, c4Params, effSizePct])
  constructor
  · rw [htr]
    simp [c4Port, hst]
  · exact hhold

end MoneyMitra
